import Mathlib

/-!
Shallow embedding of the `gnsscal` Go program (gnsscal.go) and proofs about it.

Modelling conventions:
* `time.Time` values constructed at midnight UTC are modelled as calendar
  dates (`Date`, a year/month/day record); `time.Time` ordering, equality
  and subtraction are modelled through the proleptic-Gregorian day count
  `toRata` (days since 0000-12-31, i.e. rata die), which agrees with Go's
  absolute-day arithmetic for the program's domain (years >= 1).
* `date.Sub(t).Seconds()/oneWeek.Seconds()` followed by `int(...)` is
  modelled as `Int.tdiv (dayDiff * 86400) 604800` (truncation toward zero)
  for day spans within Go's int64-nanosecond `Duration` range (at most
  106751 days in magnitude), where the float64 computation is exact
  enough that the truncated quotient equals this integer quotient; for
  larger spans `time.Time.Sub` saturates at +-2^63 ns and the quotient
  becomes the constant +-15250, which `gnssWeek` models explicitly.
* Strings are Go byte strings of ASCII data, modelled by `String`
  (all characters involved are single-byte, so Go's byte-length equals
  `String.length`).
* `fmt` verbs: `%d` via `intStr`, `%4d`-style widths via `padNum`,
  `%34s` via `padStrLeft`, `%-34s` via `padStrRight`.
* `strconv.Atoi` is modelled by `atoi` (optional sign, decimal digits,
  64-bit range check), and its error text by `atoiErrMsg`.
* `time.Date` month normalization (used with month 0) is modelled by
  `goDate`; day/hour normalization is not needed (all call sites pass
  day 1 or a validated date).
* Printing to stdout is out of scope; `mainOut` returns the text `main`
  prints (the error message, or the rendered calendar).
-/

namespace Gnsscal

/-- A calendar date: the program's `time.Time` values at midnight UTC. -/
structure Date where
  year : Nat
  month : Nat
  day : Nat
deriving DecidableEq, Repr

/-- Gregorian leap-year test (as in Go's `isLeap`). -/
def isLeap (y : Nat) : Bool :=
  y % 4 == 0 && (y % 100 != 0 || y % 400 == 0)

/-- Number of days in a month of a given year. -/
def daysInMonth (y m : Nat) : Nat :=
  match m with
  | 1 => 31
  | 2 => if isLeap y then 29 else 28
  | 3 => 31
  | 4 => 30
  | 5 => 31
  | 6 => 30
  | 7 => 31
  | 8 => 31
  | 9 => 30
  | 10 => 31
  | 11 => 30
  | 12 => 31
  | _ => 0

/-- Days of the year strictly before the given month begins. -/
def daysBeforeMonth (y m : Nat) : Nat :=
  let l : Nat := if isLeap y then 1 else 0
  match m with
  | 1 => 0
  | 2 => 31
  | 3 => 59 + l
  | 4 => 90 + l
  | 5 => 120 + l
  | 6 => 151 + l
  | 7 => 181 + l
  | 8 => 212 + l
  | 9 => 243 + l
  | 10 => 273 + l
  | 11 => 304 + l
  | 12 => 334 + l
  | _ => 0

/-- Days strictly before January 1 of year `y` (proleptic Gregorian). -/
def daysBeforeYear (y : Nat) : Nat :=
  365 * (y - 1) + (y - 1) / 4 - (y - 1) / 100 + (y - 1) / 400

/-- Rata-die day count of a date; models Go's absolute-day arithmetic.
`toRata d % 7 = 0` exactly on Sundays, matching `Weekday()`. -/
def toRata (d : Date) : Nat :=
  daysBeforeYear d.year + daysBeforeMonth d.year d.month + d.day

/-- A well-formed calendar date (as produced by Go's `time.Date` after
normalization, with year at least 1). -/
def ValidDate (d : Date) : Prop :=
  1 ≤ d.year ∧ 1 ≤ d.month ∧ d.month ≤ 12 ∧ 1 ≤ d.day ∧ d.day ≤ daysInMonth d.year d.month

instance (d : Date) : Decidable (ValidDate d) := by
  unfold ValidDate; infer_instance

/-- Satellite systems (`SatSys` constants `SYSGPS` .. `SYSBDS`). -/
inductive SatSys where
  | GPS
  | GLO
  | GAL
  | QZS
  | BDS
deriving DecidableEq, Repr

/-- Label of a satellite system (its Go string value). -/
def sysLabel : SatSys → String
  | .GPS => "GPS"
  | .GLO => "GLO"
  | .GAL => "GAL"
  | .QZS => "QZS"
  | .BDS => "BDS"

/-- GPS week epoch: `time.Date(1980, time.January, 6, ...)`. -/
def GPST0 : Date := ⟨1980, 1, 6⟩

/-- Galileo week epoch: `time.Date(1999, time.August, 22, ...)`. -/
def GST0 : Date := ⟨1999, 8, 22⟩

/-- QZSS week epoch: `time.Date(1980, time.January, 6, ...)`. -/
def QZSST0 : Date := ⟨1980, 1, 6⟩

/-- BeiDou week epoch: `time.Date(2006, time.January, 1, ...)`. -/
def BDT0 : Date := ⟨2006, 1, 1⟩

/-- Layout selector (`calLayout`). -/
inductive calLayout where
  | Layout1Month
  | Layout3Month
  | Layout1Year
deriving DecidableEq, Repr

/-- Resolved configuration (`type gnssCal struct`). -/
structure gnssCal where
  SatSys : SatSys
  Highlight : Bool
  RefDate : Date
  Layout : calLayout
  SysTime0 : Date
  Today : Date
deriving DecidableEq, Repr

/-- Decimal digit character. -/
def digitChar (n : Nat) : Char :=
  match n with
  | 0 => '0'
  | 1 => '1'
  | 2 => '2'
  | 3 => '3'
  | 4 => '4'
  | 5 => '5'
  | 6 => '6'
  | 7 => '7'
  | 8 => '8'
  | _ => '9'

/-- Decimal digits, fuel-based structural recursion (the fuel argument is
always sufficient when called through `natChars`). -/
def natCharsAux (fuel n : Nat) : List Char :=
  match fuel with
  | 0 => []
  | fuel + 1 =>
      if n < 10 then [digitChar n]
      else natCharsAux fuel (n / 10) ++ [digitChar (n % 10)]

/-- Decimal digits of a natural number, most significant first. -/
def natChars (n : Nat) : List Char := natCharsAux (n + 1) n

/-- Decimal rendering of a natural number. -/
def natStr (n : Nat) : String := String.mk (natChars n)

/-- Go `%d` rendering of an integer. -/
def intStr (i : Int) : String :=
  if i < 0 then String.mk ('-' :: natChars i.natAbs) else natStr i.toNat

/-- A run of `n` spaces. -/
def spacesStr (n : Nat) : String := String.mk (List.replicate n ' ')

/-- Go `%wd`: right-justify a number in a field of width `w` (no truncation). -/
def padNum (w : Nat) (i : Int) : String :=
  spacesStr (w - (intStr i).length) ++ intStr i

/-- Go `%ws`: right-justify a string in a field of width `w` (no truncation). -/
def padStrLeft (w : Nat) (s : String) : String :=
  spacesStr (w - s.length) ++ s

/-- Go `%-ws`: left-justify a string in a field of width `w` (no truncation). -/
def padStrRight (w : Nat) (s : String) : String :=
  s ++ spacesStr (w - s.length)

/-- Go `time.Month.String()` for the months that can occur. -/
def monthName (m : Nat) : String :=
  match m with
  | 1 => "January"
  | 2 => "February"
  | 3 => "March"
  | 4 => "April"
  | 5 => "May"
  | 6 => "June"
  | 7 => "July"
  | 8 => "August"
  | 9 => "September"
  | 10 => "October"
  | 11 => "November"
  | 12 => "December"
  | _ => "%!Month(" ++ natStr m ++ ")"

/-- Day-of-year (`doy`): whole-day difference from January 1 of the
date's year, plus one. -/
def doy (date : Date) : Int :=
  ((toRata date : Int) - (toRata ⟨date.year, 1, 1⟩ : Int)) + 1

/-- GNSS week number (`gnssWeek`): seconds since the initial date divided
by the seconds of one week, truncated toward zero as by Go's `int(...)`.
Go's `time.Time.Sub` returns an int64-nanosecond `Duration` that
saturates at +-2^63 ns, i.e. at day spans of 106752 days or more
(106751 * 86400e9 ns fits in an int64, 106752 * 86400e9 ns does not);
the saturated duration converts to `int(9223372036.854776 / 604800)
= 15250` weeks (`-15250` on the negative side). Within range the
float64 computation is exact enough that the truncated quotient equals
this integer quotient. -/
def gnssWeek (date initialDate : Date) : Int :=
  if 106752 ≤ (toRata date : Int) - (toRata initialDate : Int) then 15250
  else if (toRata date : Int) - (toRata initialDate : Int) ≤ -106752 then -15250
  else Int.tdiv (((toRata date : Int) - (toRata initialDate : Int)) * 86400) 604800

/-- Epoch for GLONASS (`leapYearDate`): January 1 of `year - year%4`. -/
def leapYearDate (date : Date) : Date :=
  ⟨date.year - date.year % 4, 1, 1⟩

/-- GLONASS week (`gloWeek`). -/
def gloWeek (date : Date) : Int := gnssWeek date (leapYearDate date)

/-- First day of the month after the given date's month (`firstDayOfNextMonth`). -/
def firstDayOfNextMonth (date : Date) : Date :=
  if date.month = 12 then ⟨date.year + 1, 1, 1⟩ else ⟨date.year, date.month + 1, 1⟩

/-- First day of the month before the given date's month (`firstDayOfLastMonth`). -/
def firstDayOfLastMonth (date : Date) : Date :=
  if date.month = 1 then ⟨date.year - 1, 12, 1⟩ else ⟨date.year, date.month - 1, 1⟩

/-- The week field written at the start of a week row: blank when the date
precedes the epoch, otherwise the `%4d`-formatted week plus two spaces. -/
def weekField (date initialDate : Date) : String :=
  if toRata date < toRata initialDate then "      "
  else padNum 4 (gnssWeek date initialDate) ++ "  "

/-- Day cell of the day row: highlighted (`H1`) when the date equals today
and highlighting is on, else `"  %2d"`. -/
def dayCell (date today : Date) (highlight : Bool) : String :=
  if toRata date = toRata today ∧ highlight = true then
    "  \x1b[7m" ++ padNum 2 (date.day : Int) ++ "\x1b[0m"
  else "  " ++ padNum 2 (date.day : Int)

/-- The start-of-week condition of the date loop: the date is the first of
the month or a Sunday. -/
def rowStart (y m d : Nat) : Prop :=
  toRata ⟨y, m, d⟩ = toRata ⟨y, m, 1⟩ ∨ toRata ⟨y, m, d⟩ % 7 = 0

instance (y m d : Nat) : Decidable (rowStart y m d) := by
  unfold rowStart; infer_instance

/-- One day's contribution to the day-row buffer: on a row start, first the
week field and one 4-space slot per weekday already elapsed; then the day
cell. -/
def dayRowStep (y m d : Nat) (today : Date) (highlight : Bool) (initialDate : Date)
    (bufday : String) : String :=
  (if rowStart y m d then
     bufday ++ weekField ⟨y, m, d⟩ initialDate ++ spacesStr (4 * (toRata ⟨y, m, d⟩ % 7))
   else bufday) ++ dayCell ⟨y, m, d⟩ today highlight

/-- One day's contribution to the doy-row buffer: on a row start, six blank
characters and the elapsed-weekday slots; then the day-of-year cell. -/
def doyRowStep (y m d : Nat) (bufdoy : String) : String :=
  (if rowStart y m d then
     bufdoy ++ "      " ++ spacesStr (4 * (toRata ⟨y, m, d⟩ % 7))
   else bufdoy) ++ " " ++ padNum 3 (doy ⟨y, m, d⟩)

/-- The date loop of `gnssCalMonth`: walks `rem` days starting at
day-of-month `d`, accumulating the day row and doy row buffers, flushing
both on Saturdays, and flushing the leftovers when the month does not end
on a Saturday. -/
def monthLoop (y m : Nat) (today : Date) (highlight : Bool) (initialDate : Date) :
    Nat → Nat → String → String → List String
  | _d, 0, bufday, bufdoy =>
      if toRata (firstDayOfNextMonth ⟨y, m, 1⟩) % 7 ≠ 0 then [bufday, bufdoy] else []
  | d, rem + 1, bufday, bufdoy =>
      let bd := dayRowStep y m d today highlight initialDate bufday
      let bo := doyRowStep y m d bufdoy
      if toRata ⟨y, m, d⟩ % 7 = 6 then
        bd :: bo :: monthLoop y m today highlight initialDate (d + 1) rem "" ""
      else monthLoop y m today highlight initialDate (d + 1) rem bd bo

/-- Calendar block for one month (`gnssCalMonth`): centered header line,
fixed weekday header, then the alternating day/doy rows. -/
def gnssCalMonth (year month : Nat) (today : Date) (highlight : Bool)
    (initialDate : Date) (sys : SatSys) : List String :=
  let head := monthName month ++ " " ++ padNum 4 (year : Int)
  let line0 := sysLabel sys ++ padStrLeft (17 + head.length / 2) head
  let nDays := toRata (firstDayOfNextMonth ⟨year, month, 1⟩) - toRata ⟨year, month, 1⟩
  line0 :: "Week   Sun Mon Tue Wed Thu Fri Sat" ::
    monthLoop year month today highlight initialDate 1 nDays "" ""

/-- One output line of the three-month layout: three fields of (at least)
34 characters joined by 4-space separators. -/
def threeMonthLine (msgl msgc msgr : List String) (i : Nat) : String :=
  (if i < msgl.length then padStrRight 34 (msgl.getD i "") else padStrLeft 34 "") ++
  "    " ++
  (if i < msgc.length then padStrRight 34 (msgc.getD i "") else padStrLeft 34 "") ++
  "    " ++
  (if i < msgr.length then padStrRight 34 (msgr.getD i "") else padStrLeft 34 "")

/-- Three-month layout (`threeMonthLayout`), including the line-count
computation exactly as written in the source (the second comparison
assigns the center block's length). -/
def threeMonthLayout (refDate today : Date) (highlight : Bool)
    (initialDate : Date) (sys : SatSys) : List String :=
  let msgc := gnssCalMonth refDate.year refDate.month today highlight initialDate sys
  let lastmonth := firstDayOfLastMonth refDate
  let nextmonth := firstDayOfNextMonth refDate
  let msgl :=
    if sys = SatSys.GLO then
      gnssCalMonth lastmonth.year lastmonth.month today highlight (leapYearDate lastmonth) sys
    else gnssCalMonth lastmonth.year lastmonth.month today highlight initialDate sys
  let msgr :=
    if sys = SatSys.GLO then
      gnssCalMonth nextmonth.year nextmonth.month today highlight (leapYearDate nextmonth) sys
    else gnssCalMonth nextmonth.year nextmonth.month today highlight initialDate sys
  let N0 := msgl.length
  let N1 := if msgc.length > N0 then msgc.length else N0
  let N2 := if msgr.length > N1 then msgc.length else N1
  (List.range N2).map (threeMonthLine msgl msgc msgr)

/-- Single-month layout (`OneMonthLayout`). -/
def OneMonthLayout (c : gnssCal) : List String :=
  gnssCalMonth c.RefDate.year c.RefDate.month c.Today c.Highlight c.SysTime0 c.SatSys

/-- Full-year layout (`OneYearLayout`): four three-month blocks anchored at
February, May, August and November, separated by blank lines. -/
def OneYearLayoutFn (year : Nat) (today : Date) (highlight : Bool)
    (initialDate : Date) (sys : SatSys) : List String :=
  threeMonthLayout ⟨year, 2, 1⟩ today highlight initialDate sys ++ [""] ++
  threeMonthLayout ⟨year, 5, 1⟩ today highlight initialDate sys ++ [""] ++
  threeMonthLayout ⟨year, 8, 1⟩ today highlight initialDate sys ++ [""] ++
  threeMonthLayout ⟨year, 11, 1⟩ today highlight initialDate sys

/-- Full-year layout on a configuration (`(c gnssCal) OneYearLayout`). -/
def OneYearLayout (c : gnssCal) : List String :=
  OneYearLayoutFn c.RefDate.year c.Today c.Highlight c.SysTime0 c.SatSys

/-- The final joined string (`(c gnssCal) String`). -/
def calString (c : gnssCal) : String :=
  String.intercalate "\n"
    (match c.Layout with
     | .Layout1Month => OneMonthLayout c
     | .Layout3Month => threeMonthLayout c.RefDate c.Today c.Highlight c.SysTime0 c.SatSys
     | .Layout1Year => OneYearLayout c)

/-- Signed decimal parse: optional sign then at least one digit, no other
characters; value unbounded. -/
def parseDigitsAux : List Char → Nat → Option Nat
  | [], acc => some acc
  | c :: t, acc =>
      if '0' ≤ c ∧ c ≤ '9' then parseDigitsAux t (acc * 10 + (c.toNat - 48))
      else none

/-- Syntax-level decimal parse of Go's `strconv.Atoi` (sign and digits). -/
def parseDec (s : String) : Option Int :=
  match s.data with
  | [] => none
  | '+' :: t => if t = [] then none else (parseDigitsAux t 0).map Int.ofNat
  | '-' :: t => if t = [] then none else (parseDigitsAux t 0).map (fun n => -(n : Int))
  | l => (parseDigitsAux l 0).map Int.ofNat

/-- Go `strconv.Atoi` on a 64-bit `int`: syntax check plus range check. -/
def atoi (s : String) : Option Int :=
  match parseDec s with
  | none => none
  | some v => if v < -(2 ^ 63 : Int) ∨ (2 ^ 63 - 1 : Int) < v then none else some v

/-- Error text of a failed `strconv.Atoi` (the `%v` part of the message). -/
def atoiErrMsg (s : String) : String :=
  "strconv.Atoi: parsing \"" ++ s ++ "\": " ++
    (match parseDec s with
     | none => "invalid syntax"
     | some _ => "value out of range")

/-- Month normalization of Go's `time.Date` (used with month 0): shifts the
year so the month lands in 1..12. -/
def goDate (y : Nat) (m : Int) (d : Nat) : Date :=
  let m0 := m - 1
  let y1 := (y : Int) + Int.tdiv m0 12
  let m1 := Int.tmod m0 12
  let ym := if m1 < 0 then (y1 - 1, m1 + 12) else (y1, m1)
  ⟨ym.1.toNat, (ym.2 + 1).toNat, d⟩

/-- The satellite-system switch of `getCalWithOpt`: recognized flag values
update the system and epoch; anything else keeps the GPS default (the
program prints a non-fatal diagnostic in that case, not modelled). -/
def applySatsys (flagSatsys : String) (cal : gnssCal) : gnssCal :=
  match flagSatsys with
  | "GPS" => { cal with SatSys := .GPS, SysTime0 := GPST0 }
  | "QZS" => { cal with SatSys := .QZS, SysTime0 := QZSST0 }
  | "BDS" => { cal with SatSys := .BDS, SysTime0 := BDT0 }
  | "GAL" => { cal with SatSys := .GAL, SysTime0 := GST0 }
  | "GLO" => { cal with SatSys := .GLO, SysTime0 := leapYearDate cal.RefDate }
  | _ => cal

/-- The trailing flag handling of `getCalWithOpt`: `-3` forces the
three-month layout and `-n` turns highlighting off. -/
def applyLayoutFlags (flag3mon flagNoHighlight : Bool) (cal : gnssCal) : gnssCal :=
  let cal3 := if flag3mon then { cal with Layout := .Layout3Month } else cal
  if flagNoHighlight then { cal3 with Highlight := false } else cal3

/-- Configuration resolution (`getCalWithOpt`), with the command-line state
(positional arguments, flag values, today's date) passed explicitly. -/
def getCalWithOpt (args : List String) (flagSatsys : String)
    (flag3mon flagNoHighlight : Bool) (today : Date) : Except String gnssCal :=
  let cal0 : gnssCal :=
    { SatSys := .GPS, Highlight := true, RefDate := today,
      Layout := .Layout1Month, SysTime0 := GPST0, Today := today }
  let step1 : Except String gnssCal :=
    match args with
    | [a] =>
        match atoi a with
        | none => .error ("invalid year: " ++ a)
        | some y =>
            if y < 1980 then .error ("invalid year: " ++ a)
            else .ok { cal0 with RefDate := ⟨y.toNat, 1, 1⟩, Layout := .Layout1Year }
    | [a, b] =>
        match atoi a with
        | none => .error ("invalid month: " ++ a ++ ", error: " ++ atoiErrMsg a)
        | some m =>
            match atoi b with
            | none => .error ("invalid year: " ++ b ++ ", error: " ++ atoiErrMsg b)
            | some y =>
                if m < 0 ∨ 12 < m then .error ("invalid month: " ++ intStr m)
                else if y < 1980 then .error ("invalid year: " ++ intStr y)
                else
                  let rd :=
                    if y = (today.year : Int) ∧ m = (today.month : Int) then today
                    else goDate y.toNat m 1
                  .ok { cal0 with Layout := .Layout1Month, RefDate := rd }
    | _ => .ok cal0
  match step1 with
  | .error e => .error e
  | .ok cal1 => .ok (applyLayoutFlags flag3mon flagNoHighlight (applySatsys flagSatsys cal1))

/-- What `main` prints: the resolution error when there is one (and then no
calendar), otherwise the rendered calendar. -/
def mainOut (args : List String) (flagSatsys : String)
    (flag3mon flagNoHighlight : Bool) (today : Date) : String :=
  match getCalWithOpt args flagSatsys flag3mon flagNoHighlight today with
  | .error e => e
  | .ok c => calString c

/-! ### Field invariance of the flag-application steps -/

theorem applySatsys_fields (sf : String) (c : gnssCal) :
    (applySatsys sf c).RefDate = c.RefDate ∧ (applySatsys sf c).Layout = c.Layout ∧
    (applySatsys sf c).Today = c.Today ∧ (applySatsys sf c).Highlight = c.Highlight := by
  unfold applySatsys; split <;> exact ⟨rfl, rfl, rfl, rfl⟩

theorem applyLayoutFlags_fields (f3 fnh : Bool) (c : gnssCal) :
    (applyLayoutFlags f3 fnh c).RefDate = c.RefDate ∧
    (applyLayoutFlags f3 fnh c).Today = c.Today ∧
    (applyLayoutFlags f3 fnh c).SatSys = c.SatSys ∧
    (applyLayoutFlags f3 fnh c).SysTime0 = c.SysTime0 := by
  unfold applyLayoutFlags; cases f3 <;> cases fnh <;> exact ⟨rfl, rfl, rfl, rfl⟩

theorem applyLayoutFlags_Layout_no3 (fnh : Bool) (c : gnssCal) :
    (applyLayoutFlags false fnh c).Layout = c.Layout := by
  unfold applyLayoutFlags; cases fnh <;> rfl

theorem applySatsys_GLO_SysTime0 (c : gnssCal) :
    (applySatsys "GLO" c).SysTime0 = leapYearDate c.RefDate := rfl

/-! ### Basic arithmetic facts about the date model -/

theorem isLeap_iff (y : Nat) :
    isLeap y = true ↔ (y % 4 = 0 ∧ (y % 100 ≠ 0 ∨ y % 400 = 0)) := by
  simp [isLeap]

set_option maxHeartbeats 4000000 in
theorem daysBeforeYear_succ (y : Nat) (hy : 1 ≤ y) :
    daysBeforeYear (y + 1) = daysBeforeYear y + (if isLeap y then 366 else 365) := by
  have h := isLeap_iff y
  cases hL : isLeap y
  · rw [hL] at h
    replace h : ¬(y % 4 = 0 ∧ (y % 100 ≠ 0 ∨ y % 400 = 0)) := fun hc =>
      absurd (h.mpr hc) (by simp)
    simp only [Bool.false_eq_true, if_false]
    unfold daysBeforeYear
    omega
  · rw [hL] at h
    replace h := h.mp rfl
    simp only [if_true]
    unfold daysBeforeYear
    omega

theorem daysBeforeYear_succ_le (y : Nat) :
    daysBeforeYear (y + 1) ≤ daysBeforeYear y + 366 := by
  rcases Nat.eq_zero_or_pos y with h0 | h1
  · subst h0; simp [daysBeforeYear]
  · rw [daysBeforeYear_succ y h1]; split <;> omega

theorem daysBeforeYear_mono {a b : Nat} (h : a ≤ b) :
    daysBeforeYear a ≤ daysBeforeYear b := by
  unfold daysBeforeYear
  have h4 : (a - 1) / 4 ≤ (b - 1) / 4 := Nat.div_le_div_right (by omega)
  have h400 : (a - 1) / 400 ≤ (b - 1) / 400 := Nat.div_le_div_right (by omega)
  have h100a : (a - 1) / 100 ≤ (a - 1) / 4 := Nat.div_le_div_left (by omega) (by omega)
  have h100b : (b - 1) / 100 ≤ (b - 1) / 4 := Nat.div_le_div_left (by omega) (by omega)
  have hd : (b - 1) / 100 ≤ (b - 1) := Nat.div_le_self _ _
  have h100 : (a - 1) / 100 ≤ (b - 1) / 100 := Nat.div_le_div_right (by omega)
  omega

theorem daysBeforeMonth_add_daysInMonth (y m : Nat) (h1 : 1 ≤ m) (h2 : m ≤ 12) :
    daysBeforeMonth y m + daysInMonth y m =
      if m = 12 then 365 + (if isLeap y then 1 else 0) else daysBeforeMonth y (m + 1) := by
  interval_cases m <;> cases hL : isLeap y <;>
    simp [daysBeforeMonth, daysInMonth, hL]

/-- The number of loop iterations of `gnssCalMonth` equals the month length. -/
theorem monthSpan (y m : Nat) (hy : 1 ≤ y) (h1 : 1 ≤ m) (h2 : m ≤ 12) :
    toRata (firstDayOfNextMonth ⟨y, m, 1⟩) - toRata ⟨y, m, 1⟩ = daysInMonth y m ∧
    toRata ⟨y, m, 1⟩ ≤ toRata (firstDayOfNextMonth ⟨y, m, 1⟩) := by
  have hadd := daysBeforeMonth_add_daysInMonth y m h1 h2
  by_cases h12 : m = 12
  · subst h12
    have hsucc := daysBeforeYear_succ y hy
    have e1 : daysBeforeMonth (y + 1) 1 = 0 := rfl
    have e2 : firstDayOfNextMonth ⟨y, 12, 1⟩ = ⟨y + 1, 1, 1⟩ := rfl
    have e3 : daysInMonth y 12 = 31 := rfl
    simp only [if_pos rfl] at hadd
    rw [e2]
    unfold toRata
    simp only [e1, e3] at hadd ⊢
    cases hL : isLeap y <;>
      simp only [hL, if_true, if_false, Bool.false_eq_true] at hadd hsucc <;> omega
  · have e2 : firstDayOfNextMonth ⟨y, m, 1⟩ = ⟨y, m + 1, 1⟩ := by
      simp [firstDayOfNextMonth, h12]
    simp only [if_neg h12] at hadd
    rw [e2]
    unfold toRata
    simp only
    omega

theorem toRata_yearLo (d : Date) (h : ValidDate d) :
    daysBeforeYear d.year < toRata d := by
  unfold toRata
  have : 1 ≤ d.day := h.2.2.2.1
  omega

theorem toRata_yearHi (d : Date) (h : ValidDate d) :
    toRata d ≤ daysBeforeYear (d.year + 1) := by
  obtain ⟨y, m, dd⟩ := d
  obtain ⟨hy, hm1, hm2, hd1, hd2⟩ := h
  simp only at hy hm1 hm2 hd1 hd2
  have hadd := daysBeforeMonth_add_daysInMonth y m hm1 hm2
  have hsucc := daysBeforeYear_succ y hy
  have hP : daysBeforeMonth y m + daysInMonth y m ≤ 365 + (if isLeap y then 1 else 0) := by
    interval_cases m <;> cases hL : isLeap y <;>
      simp [daysBeforeMonth, daysInMonth, hL]
  unfold toRata
  simp only
  cases hL : isLeap y <;> simp only [hL, if_true, if_false, Bool.false_eq_true] at hsucc hP <;>
    omega

/-- Valid dates of distinct years have distinct day counts. -/
theorem toRata_ne_of_year_ne {d1 d2 : Date} (h1 : ValidDate d1) (h2 : ValidDate d2)
    (hne : d1.year ≠ d2.year) : toRata d1 ≠ toRata d2 := by
  rcases Nat.lt_or_ge d1.year d2.year with hlt | hge
  · have := toRata_yearHi d1 h1
    have := toRata_yearLo d2 h2
    have := daysBeforeYear_mono (show d1.year + 1 ≤ d2.year by omega)
    omega
  · have hlt : d2.year < d1.year := by omega
    have := toRata_yearHi d2 h2
    have := toRata_yearLo d1 h1
    have := daysBeforeYear_mono (show d2.year + 1 ≤ d1.year by omega)
    omega

/-- Day-of-year is the days-before-month count plus the day of the month. -/
theorem doy_eq (y m dd : Nat) :
    doy ⟨y, m, dd⟩ = (daysBeforeMonth y m + dd : Nat) := by
  unfold doy toRata
  simp [daysBeforeMonth]
  omega

theorem doy_nonneg (y m dd : Nat) : 0 ≤ doy ⟨y, m, dd⟩ := by
  rw [doy_eq]; positivity

/-- The week number is non-negative whenever the date is at or after the
epoch (the saturated value 15250 included). -/
theorem gnssWeek_nonneg_of_le {date init : Date} (h : toRata init ≤ toRata date) :
    0 ≤ gnssWeek date init := by
  unfold gnssWeek
  have hd : (0 : Int) ≤ (toRata date : Int) - toRata init := by omega
  split
  · norm_num
  · split
    · omega
    · exact Int.tdiv_nonneg (mul_nonneg hd (by norm_num)) (by norm_num)

/-- Within the range of Go's `Duration`, the week number is the whole-day
difference divided by 7, rounded down. -/
theorem gnssWeek_div_of_le (date epoch : Date) (h : toRata epoch ≤ toRata date)
    (hb : toRata date - toRata epoch ≤ 106751) :
    gnssWeek date epoch = ((toRata date - toRata epoch) / 7 : Nat) := by
  have hcast : ((toRata date : Int) - (toRata epoch : Int)) =
      ((toRata date - toRata epoch : Nat) : Int) := by omega
  unfold gnssWeek
  rw [if_neg (by omega), if_neg (by omega)]
  rw [hcast]
  have h1 : ((toRata date - toRata epoch : Nat) : Int) * 86400 =
      (((toRata date - toRata epoch) * 86400 : Nat) : Int) := by push_cast; ring
  have h2 : (604800 : Int) = ((604800 : Nat) : Int) := rfl
  rw [h1, h2, ← Int.ofNat_tdiv]
  have h3 : (toRata date - toRata epoch) * 86400 / 604800 =
      (toRata date - toRata epoch) / 7 := by
    rw [show 604800 = 7 * 86400 from rfl]
    exact Nat.mul_div_mul_right _ _ (by norm_num)
  rw [h3]

/-! ### Claim C3 -/

/-- Counterexample to C3 as stated: at January 1, 2300 against the GPS
epoch the whole-day difference is 116873 days, beyond the int64 range of
Go's `Duration`, so `Sub` saturates and the program yields week 15250
instead of the whole-day difference divided by 7 (16696). -/
theorem gnssWeek_saturates :
    toRata GPST0 ≤ toRata ⟨2300, 1, 1⟩ ∧
    toRata ⟨2300, 1, 1⟩ - toRata GPST0 = 116873 ∧
    gnssWeek ⟨2300, 1, 1⟩ GPST0 = 15250 ∧
    ((toRata ⟨2300, 1, 1⟩ - toRata GPST0) / 7 : Nat) = 16696 ∧
    gnssWeek ⟨2300, 1, 1⟩ GPST0 ≠
      ((toRata ⟨2300, 1, 1⟩ - toRata GPST0) / 7 : Nat) :=
  ⟨by decide, by decide, by decide, by decide, by decide⟩

/-- C3 (amended): for every pair of dates with `epoch <= date`,
`gnssWeek date epoch` is non-negative, and provided the whole-day
difference is at most 106751 days (within Go's `Duration` range, about
292 years) it equals the whole-day difference divided by 7 rounded down
(the count of complete 7-day periods); for larger spans `time.Time.Sub`
saturates and the program returns the constant 15250 instead. -/
theorem gnssWeek_spec_in_range (date epoch : Date) (h : toRata epoch ≤ toRata date) :
    0 ≤ gnssWeek date epoch ∧
    (toRata date - toRata epoch ≤ 106751 →
      gnssWeek date epoch = ((toRata date - toRata epoch) / 7 : Nat)) :=
  ⟨gnssWeek_nonneg_of_le h, fun hb => gnssWeek_div_of_le date epoch h hb⟩

/-- Witness for the amended C3 at October 1, 2021 against the GPS epoch. -/
theorem gnssWeek_spec_in_range_witness :
    (toRata GPST0 ≤ toRata ⟨2021, 10, 1⟩ ∧
      toRata ⟨2021, 10, 1⟩ - toRata GPST0 ≤ 106751) ∧
    (0 ≤ gnssWeek ⟨2021, 10, 1⟩ GPST0 ∧
      (toRata ⟨2021, 10, 1⟩ - toRata GPST0 ≤ 106751 →
        gnssWeek ⟨2021, 10, 1⟩ GPST0 =
          ((toRata ⟨2021, 10, 1⟩ - toRata GPST0) / 7 : Nat))) :=
  ⟨⟨by decide, by decide⟩, gnssWeek_spec_in_range ⟨2021, 10, 1⟩ GPST0 (by decide)⟩

/-! ### Claim C4 -/

/-- C4: for every valid date, `doy` is the whole-day difference from
January 1 of its year plus one, `doy` of January 1 is 1, and `doy` lies in
`[1, 365]` (non-leap year) or `[1, 366]` (leap year). -/
theorem doy_spec (d : Date) (h : ValidDate d) :
    doy d = (toRata d : Int) - (toRata ⟨d.year, 1, 1⟩ : Int) + 1 ∧
    doy ⟨d.year, 1, 1⟩ = 1 ∧
    1 ≤ doy d ∧
    doy d ≤ (if isLeap d.year then 366 else 365) := by
  obtain ⟨y, m, dd⟩ := d
  obtain ⟨hy, hm1, hm2, hd1, hd2⟩ := h
  simp only at hy hm1 hm2 hd1 hd2 ⊢
  refine ⟨rfl, by rw [doy_eq]; simp [daysBeforeMonth], ?_, ?_⟩
  · rw [doy_eq]
    have : 1 ≤ daysBeforeMonth y m + dd := by omega
    exact_mod_cast this
  · rw [doy_eq]
    have : daysBeforeMonth y m + dd ≤ 365 + (if isLeap y then 1 else 0) := by
      interval_cases m <;> cases hL : isLeap y <;>
        simp [daysBeforeMonth, daysInMonth, hL] at hd2 ⊢ <;> omega
    cases hL : isLeap y <;> simp [hL] at this ⊢ <;> exact_mod_cast this

/-- Witness for C4 at March 1, 2020 (a leap year; day-of-year 61). -/
theorem doy_spec_witness :
    ValidDate ⟨2020, 3, 1⟩ ∧
    (doy ⟨2020, 3, 1⟩ =
        (toRata ⟨2020, 3, 1⟩ : Int) - (toRata ⟨2020, 1, 1⟩ : Int) + 1 ∧
      doy ⟨2020, 1, 1⟩ = 1 ∧
      1 ≤ doy ⟨2020, 3, 1⟩ ∧
      doy ⟨2020, 3, 1⟩ ≤ (if isLeap 2020 then 366 else 365)) :=
  ⟨by decide, doy_spec ⟨2020, 3, 1⟩ (by decide)⟩

/-! ### Claim C5 -/

/-- C5: the GLONASS epoch `leapYearDate` is January 1 of
`year - year % 4`, the most recent multiple-of-4 year at or before the
reference date's year; and configuration resolution with satellite system
`GLO` installs exactly this date as the week epoch. -/
theorem leapYearDate_spec (d : Date) :
    leapYearDate d = ⟨d.year - d.year % 4, 1, 1⟩ ∧
    (d.year - d.year % 4) % 4 = 0 ∧
    d.year - d.year % 4 ≤ d.year ∧
    (∀ k : Nat, k % 4 = 0 → k ≤ d.year → k ≤ d.year - d.year % 4) ∧
    (∀ args f3 fnh today c, getCalWithOpt args "GLO" f3 fnh today = .ok c →
      c.SysTime0 = leapYearDate c.RefDate) := by
  refine ⟨rfl, by omega, by omega, fun k hk hle => by omega, ?_⟩
  intro args f3 fnh today c hok
  unfold getCalWithOpt at hok
  simp only at hok
  split at hok
  · exact absurd hok (by simp)
  · rename_i cal1 heq
    replace hok := Except.ok.inj hok
    subst hok
    rw [(applyLayoutFlags_fields f3 fnh _).2.2.2, applySatsys_GLO_SysTime0,
      (applyLayoutFlags_fields f3 fnh _).1, (applySatsys_fields "GLO" cal1).1]

/-- Witness for C5 at October 16, 2021: epoch January 1, 2020. -/
theorem leapYearDate_spec_witness :
    leapYearDate ⟨2021, 10, 16⟩ = ⟨2020, 1, 1⟩ :=
  (leapYearDate_spec ⟨2021, 10, 16⟩).1

/-! ### Claim C1 -/

/-- C1: the three-month layout does not always emit `max` many lines. At
reference date December 1, 2021 the previous (November 2021) and center
(December 2021) blocks have 12 lines while the next block (January 2022)
has 14, yet the layout emits only 12 lines: the line-count computation
assigns the center block's length when the right block is longer, so the
right block is truncated. -/
theorem threeMonthLayout_truncates_right_block :
    (threeMonthLayout ⟨2021, 12, 1⟩ ⟨2021, 1, 1⟩ false GPST0 .GPS).length = 12 ∧
    (gnssCalMonth 2021 11 ⟨2021, 1, 1⟩ false GPST0 .GPS).length = 12 ∧
    (gnssCalMonth 2021 12 ⟨2021, 1, 1⟩ false GPST0 .GPS).length = 12 ∧
    (gnssCalMonth 2022 1 ⟨2021, 1, 1⟩ false GPST0 .GPS).length = 14 := by
  refine ⟨?_, by decide, by decide, by decide⟩
  decide

/-! ### Claim C7 -/

/-- C7: the October 2021 month block under the GPS epoch has, as its first
two data rows, exactly the sample strings: week 2177 and day-of-year 274
on the row containing October 1. -/
theorem gnssCalMonth_oct2021_sample :
    (gnssCalMonth 2021 10 ⟨2021, 1, 1⟩ false GPST0 .GPS).get? 2 =
      some "2177                         1   2" ∧
    (gnssCalMonth 2021 10 ⟨2021, 1, 1⟩ false GPST0 .GPS).get? 3 =
      some "                           274 275" := by
  constructor <;> decide

/-! ### Claim C2 -/

/-- C2: with exactly two positional arguments, configuration resolution
succeeds iff the first parses as an integer month in `[0, 12]` and the
second as an integer year at least 1980; in particular month argument
`"13"` yields the error `"invalid month: 13"` and `main` prints only that
error, no calendar. -/
theorem getCalWithOpt_two_args_spec :
    (∀ (a1 a2 sf : String) (f3 fnh : Bool) (today : Date),
      (∃ c, getCalWithOpt [a1, a2] sf f3 fnh today = .ok c) ↔
      (∃ m y : Int, atoi a1 = some m ∧ atoi a2 = some y ∧
        0 ≤ m ∧ m ≤ 12 ∧ 1980 ≤ y)) ∧
    (∀ (sf : String) (f3 fnh : Bool) (today : Date),
      getCalWithOpt ["13", "2021"] sf f3 fnh today = .error "invalid month: 13" ∧
      mainOut ["13", "2021"] sf f3 fnh today = "invalid month: 13") := by
  constructor
  · intro a1 a2 sf f3 fnh today
    unfold getCalWithOpt
    cases h1 : atoi a1 with
    | none =>
        simp only [h1]
        constructor
        · rintro ⟨c, hc⟩; exact absurd hc (by simp)
        · rintro ⟨m, y, hm, -⟩; cases hm
    | some m =>
        cases h2 : atoi a2 with
        | none =>
            simp only [h1, h2]
            constructor
            · rintro ⟨c, hc⟩; exact absurd hc (by simp)
            · rintro ⟨m', y', hm', hy', -⟩
              cases hy'
        | some y =>
            simp only [h1, h2]
            by_cases hm : m < 0 ∨ 12 < m
            · rw [if_pos hm]
              constructor
              · rintro ⟨c, hc⟩; exact absurd hc (by simp)
              · rintro ⟨m', y', hm', hy', hb1, hb2, hb3⟩
                cases hm'
                exfalso; omega
            · rw [if_neg hm]
              by_cases hy : y < 1980
              · rw [if_pos hy]
                constructor
                · rintro ⟨c, hc⟩; exact absurd hc (by simp)
                · rintro ⟨m', y', hm', hy', hb1, hb2, hb3⟩
                  cases hm'
                  cases hy'
                  exfalso; omega
              · rw [if_neg hy]
                constructor
                · intro _
                  exact ⟨m, y, rfl, rfl, by omega, by omega, by omega⟩
                · intro _
                  exact ⟨_, rfl⟩
  · intro sf f3 fnh today
    exact ⟨rfl, rfl⟩

/-! ### Claim C10 -/

/-- C10: two positional arguments `0` and a year at least 1980 are
accepted without error, and Go's month normalization makes the reference
date December 1 of the previous year, so the single-month layout renders
December of the year before the one named. -/
theorem getCalWithOpt_month_zero (ys : String) (y : Nat) (sf : String)
    (fnh : Bool) (today : Date)
    (hy : atoi ys = some (y : Int)) (hge : 1980 ≤ y) (ht : ValidDate today) :
    ∃ c, getCalWithOpt ["0", ys] sf false fnh today = .ok c ∧
      c.RefDate = ⟨y - 1, 12, 1⟩ ∧ c.Layout = .Layout1Month ∧ c.Today = today ∧
      OneMonthLayout c =
        gnssCalMonth (y - 1) 12 today c.Highlight c.SysTime0 c.SatSys := by
  have h0 : atoi "0" = some 0 := rfl
  have hmonth : ¬((y : Int) = (today.year : Int) ∧ (0 : Int) = (today.month : Int)) := by
    rintro ⟨-, hm⟩
    have : 1 ≤ today.month := ht.2.1
    omega
  have hgd : goDate y 0 1 = ⟨y - 1, 12, 1⟩ := by
    unfold goDate
    have e1 : Int.tdiv (0 - 1) 12 = 0 := rfl
    have e2 : Int.tmod (0 - 1) 12 = -1 := rfl
    simp only [e1, e2, add_zero, if_pos (show (-1 : Int) < 0 by norm_num)]
    have : ((y : Int) - 1).toNat = y - 1 := by omega
    simp [this]
  unfold getCalWithOpt
  simp only [h0, hy]
  rw [if_neg (by norm_num), if_neg (by omega), if_neg hmonth]
  simp only [Int.toNat_ofNat, hgd]
  refine ⟨_, rfl, ?_, ?_, ?_, ?_⟩
  · rw [(applyLayoutFlags_fields false fnh _).1, (applySatsys_fields sf _).1]
  · rw [applyLayoutFlags_Layout_no3 fnh _, (applySatsys_fields sf _).2.1]
  · rw [(applyLayoutFlags_fields false fnh _).2.1, (applySatsys_fields sf _).2.2.1]
  · unfold OneMonthLayout
    rw [(applyLayoutFlags_fields false fnh _).1, (applySatsys_fields sf _).1,
      (applyLayoutFlags_fields false fnh _).2.1, (applySatsys_fields sf _).2.2.1]

/-- Witness for C10: `gnsscal 0 2021` is accepted and renders December 2020. -/
theorem getCalWithOpt_month_zero_witness :
    (atoi "2021" = some ((2021 : Nat) : Int) ∧ 1980 ≤ 2021 ∧ ValidDate ⟨2021, 10, 16⟩) ∧
    (∃ c, getCalWithOpt ["0", "2021"] "GPS" false false ⟨2021, 10, 16⟩ = .ok c ∧
      c.RefDate = ⟨2021 - 1, 12, 1⟩ ∧ c.Layout = .Layout1Month ∧
      c.Today = ⟨2021, 10, 16⟩ ∧
      OneMonthLayout c =
        gnssCalMonth (2021 - 1) 12 ⟨2021, 10, 16⟩ c.Highlight c.SysTime0 c.SatSys) :=
  ⟨⟨by decide, by decide, by decide⟩,
    getCalWithOpt_month_zero "2021" 2021 "GPS" false ⟨2021, 10, 16⟩
      (by decide) (by decide) (by decide)⟩

/-! ### Character-level string facts -/

/-- A character does not occur in a string. -/
def charFree (c : Char) (s : String) : Prop := c ∉ s.data

instance (c : Char) (s : String) : Decidable (charFree c s) := by
  unfold charFree; infer_instance

theorem charFree_append {c : Char} {a b : String} :
    charFree c (a ++ b) ↔ charFree c a ∧ charFree c b := by
  unfold charFree
  rw [String.data_append]
  simp [not_or]

theorem charFree_empty (c : Char) : charFree c "" := by
  unfold charFree
  rw [show ("" : String).data = [] from rfl]
  exact List.not_mem_nil c

theorem charFree_spaces {c : Char} (h : c ≠ ' ') (n : Nat) : charFree c (spacesStr n) := by
  unfold charFree spacesStr
  simp [List.mem_replicate, h]

theorem digitChar_isDigit (n : Nat) : (digitChar n).isDigit = true := by
  unfold digitChar
  split <;> decide

theorem mem_natCharsAux_isDigit :
    ∀ fuel n c, c ∈ natCharsAux fuel n → c.isDigit = true := by
  intro fuel
  induction fuel with
  | zero => intro n c h; simp [natCharsAux] at h
  | succ f ih =>
      intro n c h
      unfold natCharsAux at h
      split at h
      · rw [List.mem_singleton] at h
        subst h
        exact digitChar_isDigit n
      · rw [List.mem_append, List.mem_singleton] at h
        rcases h with h | h
        · exact ih _ _ h
        · subst h
          exact digitChar_isDigit _

theorem charFree_natStr {c : Char} (h : c.isDigit = false) (n : Nat) :
    charFree c (natStr n) := fun hc => by
  have := mem_natCharsAux_isDigit _ _ _ hc
  rw [h] at this
  cases this

theorem charFree_intStr {c : Char} (hd : c.isDigit = false) (hm : c ≠ '-') (i : Int) :
    charFree c (intStr i) := by
  unfold intStr
  split
  · intro hc
    rw [show (String.mk ('-' :: natChars i.natAbs)).data = '-' :: natChars i.natAbs from rfl,
      List.mem_cons] at hc
    rcases hc with hc | hc
    · exact hm hc
    · have := mem_natCharsAux_isDigit _ _ _ hc
      rw [hd] at this
      cases this
  · exact charFree_natStr hd _

theorem charFree_padNum {c : Char} (hd : c.isDigit = false) (hm : c ≠ '-')
    (hsp : c ≠ ' ') (w : Nat) (i : Int) : charFree c (padNum w i) :=
  charFree_append.mpr ⟨charFree_spaces hsp _, charFree_intStr hd hm i⟩

theorem charFree_padStrLeft {c : Char} (hsp : c ≠ ' ') {w : Nat} {s : String}
    (hs : charFree c s) : charFree c (padStrLeft w s) :=
  charFree_append.mpr ⟨charFree_spaces hsp _, hs⟩

theorem charFree_padStrRight {c : Char} (hsp : c ≠ ' ') {w : Nat} {s : String}
    (hs : charFree c s) : charFree c (padStrRight w s) :=
  charFree_append.mpr ⟨hs, charFree_spaces hsp _⟩

theorem charFree_monthName {c : Char} (hd : c.isDigit = false)
    (hs : c ∉ "%!Month()JanuryFebchApilgstSmOcoNvD".data) (m : Nat) :
    charFree c (monthName m) := by
  unfold monthName
  split <;>
    first
      | (intro hc
         rw [String.data_append, String.data_append, List.mem_append, List.mem_append] at hc
         rcases hc with (hc | hc) | hc
         · apply hs; fin_cases hc <;> decide
         · exact absurd hc (charFree_natStr hd m)
         · apply hs; fin_cases hc <;> decide)
      | (intro hc; apply hs; fin_cases hc <;> decide)

/-! ### Length facts for rendered fields -/

theorem natCharsAux_length_le :
    ∀ (fuel n k : Nat), 1 ≤ k → n < 10 ^ k → (natCharsAux fuel n).length ≤ k := by
  intro fuel
  induction fuel with
  | zero => intro n k hk _; simp [natCharsAux]
  | succ f ih =>
      intro n k hk hn
      unfold natCharsAux
      split
      · simpa using hk
      · rename_i hge
        have hk2 : 2 ≤ k := by
          by_contra hlt
          have : k = 1 := by omega
          subst this
          simp at hn
          omega
        have hdiv : n / 10 < 10 ^ (k - 1) := by
          have h10 : (10 : Nat) ^ k = 10 * 10 ^ (k - 1) := by
            conv_lhs => rw [show k = 1 + (k - 1) by omega]
            rw [pow_add, pow_one]
          rw [Nat.div_lt_iff_lt_mul (by norm_num)]
          omega
        have := ih (n / 10) (k - 1) (by omega) hdiv
        rw [List.length_append, List.length_singleton]
        omega

theorem natStr_length_le {n k : Nat} (hk : 1 ≤ k) (h : n < 10 ^ k) :
    (natStr n).length ≤ k :=
  natCharsAux_length_le _ _ _ hk h

theorem intStr_length_le {i : Int} {k : Nat} (hk : 1 ≤ k) (h0 : 0 ≤ i)
    (h : i < 10 ^ k) : (intStr i).length ≤ k := by
  unfold intStr
  rw [if_neg (by omega)]
  refine natStr_length_le hk ?_
  have hcast : ((10 : Int) ^ k) = ((10 ^ k : Nat) : Int) := by push_cast; ring
  rw [hcast] at h
  omega

theorem spacesStr_length (n : Nat) : (spacesStr n).length = n := by
  show (List.replicate n ' ').length = n
  exact List.length_replicate n ' '

theorem padNum_length (w : Nat) (i : Int) :
    (padNum w i).length = w - (intStr i).length + (intStr i).length := by
  unfold padNum
  rw [String.length_append, spacesStr_length]

theorem padNum_length_of_le {w : Nat} {i : Int} (h : (intStr i).length ≤ w) :
    (padNum w i).length = w := by
  rw [padNum_length]; omega

theorem padStrLeft_length (w : Nat) (s : String) :
    (padStrLeft w s).length = w - s.length + s.length := by
  unfold padStrLeft
  rw [String.length_append, spacesStr_length]

theorem padStrRight_length (w : Nat) (s : String) :
    (padStrRight w s).length = s.length + (w - s.length) := by
  unfold padStrRight
  rw [String.length_append, spacesStr_length]

/-! ### Character freeness of the renderer's atoms -/

theorem charFree_of_all_space {c : Char} (hsp : c ≠ ' ') {s : String}
    (h : ∀ x ∈ s.data, x = ' ') : charFree c s := fun hc => hsp (h c hc)

theorem charFree_intStr_nonneg {c : Char} (hd : c.isDigit = false) {i : Int}
    (hi : 0 ≤ i) : charFree c (intStr i) := by
  unfold intStr
  rw [if_neg (by omega)]
  exact charFree_natStr hd _

theorem charFree_padNum_nonneg {c : Char} (hsp : c ≠ ' ') (hd : c.isDigit = false)
    {i : Int} (hi : 0 ≤ i) (w : Nat) : charFree c (padNum w i) :=
  charFree_append.mpr ⟨charFree_spaces hsp _, charFree_intStr_nonneg hd hi⟩

theorem charFree_weekField {c : Char} (hsp : c ≠ ' ') (hd : c.isDigit = false)
    (date init : Date) : charFree c (weekField date init) := by
  unfold weekField
  split
  · exact charFree_of_all_space hsp (by decide)
  · rename_i hlt
    refine charFree_append.mpr
      ⟨charFree_padNum_nonneg hsp hd (gnssWeek_nonneg_of_le (by omega)) 4,
       charFree_of_all_space hsp (by decide)⟩

theorem charFree_doyCell {c : Char} (hsp : c ≠ ' ') (hd : c.isDigit = false)
    (y m d : Nat) : charFree c (" " ++ padNum 3 (doy ⟨y, m, d⟩)) :=
  charFree_append.mpr ⟨charFree_of_all_space hsp (by decide),
    charFree_padNum_nonneg hsp hd (doy_nonneg y m d) 3⟩

theorem charFree_dash_dayCell (y m d : Nat) (today : Date) (hl : Bool) :
    charFree '-' (dayCell ⟨y, m, d⟩ today hl) := by
  unfold dayCell
  split
  · exact charFree_append.mpr ⟨charFree_append.mpr
      ⟨by decide, charFree_padNum_nonneg (by decide) (by decide) (by positivity) 2⟩,
      by decide⟩
  · exact charFree_append.mpr
      ⟨by decide, charFree_padNum_nonneg (by decide) (by decide) (by positivity) 2⟩

theorem charFree_dayCell_plain {c : Char} (hsp : c ≠ ' ') (hd : c.isDigit = false)
    {y m d : Nat} {today : Date} {hl : Bool}
    (hne : ¬(toRata ⟨y, m, d⟩ = toRata today ∧ hl = true)) :
    charFree c (dayCell ⟨y, m, d⟩ today hl) := by
  unfold dayCell
  rw [if_neg hne]
  exact charFree_append.mpr ⟨charFree_of_all_space hsp (by decide),
    charFree_padNum_nonneg hsp hd (by positivity) 2⟩

theorem charFree_dayRowStep {c : Char} (hsp : c ≠ ' ') (hd : c.isDigit = false)
    {y m d : Nat} {today : Date} {hl : Bool} {init : Date} {bufday : String}
    (hcell : charFree c (dayCell ⟨y, m, d⟩ today hl)) (hb : charFree c bufday) :
    charFree c (dayRowStep y m d today hl init bufday) := by
  unfold dayRowStep
  refine charFree_append.mpr ⟨?_, hcell⟩
  split
  · exact charFree_append.mpr ⟨charFree_append.mpr
      ⟨hb, charFree_weekField hsp hd _ _⟩, charFree_spaces hsp _⟩
  · exact hb

theorem charFree_doyRowStep {c : Char} (hsp : c ≠ ' ') (hd : c.isDigit = false)
    {y m d : Nat} {bufdoy : String} (hb : charFree c bufdoy) :
    charFree c (doyRowStep y m d bufdoy) := by
  unfold doyRowStep
  refine charFree_append.mpr ⟨charFree_append.mpr ⟨?_, ?_⟩, ?_⟩
  · split
    · exact charFree_append.mpr ⟨charFree_append.mpr
        ⟨hb, charFree_of_all_space hsp (by decide)⟩, charFree_spaces hsp _⟩
    · exact hb
  · exact charFree_of_all_space hsp (by decide)
  · exact charFree_padNum_nonneg hsp hd (doy_nonneg y m d) 3

/-- Every line the date loop emits avoids a character avoided by the
buffers and by every day cell in range. -/
theorem monthLoop_charFree {c : Char} (hsp : c ≠ ' ') (hd : c.isDigit = false)
    (y m : Nat) (today : Date) (hl : Bool) (init : Date) :
    ∀ rem d bufday bufdoy,
      (∀ k, k < rem → charFree c (dayCell ⟨y, m, d + k⟩ today hl)) →
      charFree c bufday → charFree c bufdoy →
      ∀ line ∈ monthLoop y m today hl init d rem bufday bufdoy, charFree c line := by
  intro rem
  induction rem with
  | zero =>
      intro d bd bo _ hbd hbo line hline
      unfold monthLoop at hline
      split at hline
      · simp only [List.mem_cons, List.not_mem_nil, or_false] at hline
        rcases hline with rfl | rfl
        · exact hbd
        · exact hbo
      · cases hline
  | succ r ih =>
      intro d bd bo hcells hbd hbo line hline
      unfold monthLoop at hline
      have hcell0 : charFree c (dayCell ⟨y, m, d⟩ today hl) := by
        have := hcells 0 (by omega)
        simpa using this
      have hcells1 : ∀ k, k < r → charFree c (dayCell ⟨y, m, d + 1 + k⟩ today hl) := by
        intro k hk
        have heq : d + 1 + k = d + (k + 1) := by omega
        rw [heq]
        exact hcells (k + 1) (by omega)
      split at hline
      · simp only [List.mem_cons] at hline
        rcases hline with rfl | rfl | h
        · exact charFree_dayRowStep hsp hd hcell0 hbd
        · exact charFree_doyRowStep hsp hd hbo
        · exact ih (d + 1) "" "" hcells1 (charFree_empty c) (charFree_empty c) line h
      · exact ih (d + 1) _ _ hcells1 (charFree_dayRowStep hsp hd hcell0 hbd)
          (charFree_doyRowStep hsp hd hbo) line hline

/-- Every line of a month block avoids a character avoided by the system
label, the month name, the weekday header and every day cell. -/
theorem gnssCalMonth_charFree {c : Char} (hsp : c ≠ ' ') (hd : c.isDigit = false)
    {y m : Nat} {today : Date} {hl : Bool} {init : Date} {sys : SatSys}
    (hsys : charFree c (sysLabel sys)) (hmn : charFree c (monthName m))
    (hwk : charFree c "Week   Sun Mon Tue Wed Thu Fri Sat")
    (hcells : ∀ k, k < toRata (firstDayOfNextMonth ⟨y, m, 1⟩) - toRata ⟨y, m, 1⟩ →
      charFree c (dayCell ⟨y, m, 1 + k⟩ today hl)) :
    ∀ line ∈ gnssCalMonth y m today hl init sys, charFree c line := by
  intro line hline
  unfold gnssCalMonth at hline
  simp only [List.mem_cons] at hline
  rcases hline with rfl | rfl | h
  · refine charFree_append.mpr ⟨hsys, charFree_padStrLeft hsp ?_⟩
    exact charFree_append.mpr ⟨charFree_append.mpr
      ⟨hmn, charFree_of_all_space hsp (by decide)⟩,
      charFree_padNum_nonneg hsp hd (by positivity) 4⟩
  · exact hwk
  · exact monthLoop_charFree hsp hd y m today hl init _ 1 "" ""
      hcells (charFree_empty c) (charFree_empty c) line h

/-! ### Epoch independence of the doy rows -/

/-- The entries at odd positions of a list (positions 1, 3, 5, ...). -/
def oddEntries : List String → List String
  | [] => []
  | [_] => []
  | _ :: b :: t => b :: oddEntries t

/-- The epoch influences neither the number of lines of the date loop nor
any of its odd-position lines (the doy rows). -/
theorem monthLoop_epoch (y m : Nat) (today : Date) (hl : Bool) (i1 i2 : Date) :
    ∀ rem d bd1 bd2 bo,
      (monthLoop y m today hl i1 d rem bd1 bo).length =
        (monthLoop y m today hl i2 d rem bd2 bo).length ∧
      oddEntries (monthLoop y m today hl i1 d rem bd1 bo) =
        oddEntries (monthLoop y m today hl i2 d rem bd2 bo) := by
  intro rem
  induction rem with
  | zero =>
      intro d bd1 bd2 bo
      unfold monthLoop
      split <;> exact ⟨rfl, rfl⟩
  | succ r ih =>
      intro d bd1 bd2 bo
      unfold monthLoop
      split
      · have h := ih (d + 1) "" "" ""
        refine ⟨?_, ?_⟩
        · simp only [List.length_cons, h.1]
        · show doyRowStep y m d bo :: oddEntries (monthLoop y m today hl i1 (d + 1) r "" "") =
            doyRowStep y m d bo :: oddEntries (monthLoop y m today hl i2 (d + 1) r "" "")
          rw [h.2]
      · exact ih (d + 1) _ _ _

/-! ### Blank week fields before the epoch -/

/-- Six blank characters: the blank week field. -/
def blank6 : List Char := List.replicate 6 ' '

theorem take6_append {a b : String} (h : a.data.take 6 = blank6) :
    (a ++ b).data.take 6 = blank6 := by
  have hlen : 6 ≤ a.data.length := by
    have hl6 := congrArg List.length h
    rw [List.length_take] at hl6
    have h6 : blank6.length = 6 := rfl
    omega
  rw [String.data_append, List.take_append_of_le_length hlen, h]

theorem toRata_day_add (y m d k : Nat) :
    toRata ⟨y, m, d + k⟩ = toRata ⟨y, m, d⟩ + k := by
  unfold toRata
  simp only
  omega

theorem toRata_eq_first_iff (y m d : Nat) :
    toRata ⟨y, m, d⟩ = toRata ⟨y, m, 1⟩ ↔ d = 1 := by
  unfold toRata
  simp only
  omega

theorem daysInMonth_pos (y m : Nat) (h1 : 1 ≤ m) (h2 : m ≤ 12) :
    1 ≤ daysInMonth y m := by
  interval_cases m <;> simp [daysInMonth] <;> split <;> omega

/-- Every line the date loop emits starts with six blanks when every date
in range precedes the epoch (and the buffers are consistent with the
current position). -/
theorem monthLoop_blank (y m : Nat) (today : Date) (hl : Bool) (init : Date)
    (h0 : toRata ⟨y, m, 1⟩ < toRata (firstDayOfNextMonth ⟨y, m, 1⟩)) :
    ∀ rem d bd bo,
      1 ≤ d →
      toRata ⟨y, m, d⟩ + rem = toRata (firstDayOfNextMonth ⟨y, m, 1⟩) →
      (∀ k, k < rem → toRata ⟨y, m, d + k⟩ < toRata init) →
      (rowStart y m d → bd = "" ∧ bo = "") →
      (¬rowStart y m d → bd.data.take 6 = blank6 ∧ bo.data.take 6 = blank6) →
      ∀ line ∈ monthLoop y m today hl init d rem bd bo,
        line.data.take 6 = blank6 := by
  intro rem
  induction rem with
  | zero =>
      intro d bd bo hd1 hlink hbef hst hnst line hline
      unfold monthLoop at hline
      split at hline
      · rename_i hflush
        simp only [List.mem_cons, List.not_mem_nil, or_false] at hline
        have hnstart : ¬rowStart y m d := by
          intro hs
          rcases hs with hfirst | hsun
          · omega
          · omega
        rcases hline with rfl | rfl
        · exact (hnst hnstart).1
        · exact (hnst hnstart).2
      · cases hline
  | succ r ih =>
      intro d bd bo hd1 hlink hbef hst hnst line hline
      unfold monthLoop at hline
      have hsucc : toRata ⟨y, m, d + 1⟩ = toRata ⟨y, m, d⟩ + 1 := toRata_day_add y m d 1
      have hbd1 : (dayRowStep y m d today hl init bd).data.take 6 = blank6 := by
        by_cases hs : rowStart y m d
        · obtain ⟨h1, h2⟩ := hst hs
          subst h1
          unfold dayRowStep
          rw [if_pos hs]
          apply take6_append
          apply take6_append
          unfold weekField
          rw [if_pos (by have := hbef 0 (by omega); simpa using this)]
          decide
        · unfold dayRowStep
          rw [if_neg hs]
          exact take6_append (hnst hs).1
      have hbo1 : (doyRowStep y m d bo).data.take 6 = blank6 := by
        by_cases hs : rowStart y m d
        · obtain ⟨h1, h2⟩ := hst hs
          subst h2
          unfold doyRowStep
          rw [if_pos hs]
          apply take6_append
          apply take6_append
          apply take6_append
          decide
        · unfold doyRowStep
          rw [if_neg hs]
          exact take6_append (take6_append (hnst hs).2)
      have hbef1 : ∀ k, k < r → toRata ⟨y, m, d + 1 + k⟩ < toRata init := by
        intro k hk
        have he : d + 1 + k = d + (k + 1) := by omega
        rw [he]
        exact hbef (k + 1) (by omega)
      split at hline
      · rename_i hsat
        simp only [List.mem_cons] at hline
        rcases hline with rfl | rfl | h
        · exact hbd1
        · exact hbo1
        · refine ih (d + 1) "" "" (by omega) (by omega) hbef1
            (fun _ => ⟨rfl, rfl⟩) ?_ line h
          intro hns
          exact absurd (Or.inr (by omega)) hns
      · rename_i hnsat
        have hns1 : ¬rowStart y m (d + 1) := by
          intro hs
          rcases hs with hfirst | hsun
          · have := (toRata_eq_first_iff y m (d + 1)).mp hfirst
            omega
          · have hlt : toRata ⟨y, m, d⟩ % 7 < 7 := Nat.mod_lt _ (by omega)
            omega
        refine ih (d + 1) _ _ (by omega) (by omega) hbef1
          (fun hs => absurd hs hns1) (fun _ => ⟨hbd1, hbo1⟩) line hline

theorem natChars_ne_nil (n : Nat) : natChars n ≠ [] := by
  show (if n < 10 then [digitChar n]
    else natCharsAux n (n / 10) ++ [digitChar (n % 10)]) ≠ []
  split
  · simp
  · simp

theorem exists_digit_mem_natChars (n : Nat) :
    ∃ c ∈ natChars n, c.isDigit = true := by
  have hne := natChars_ne_nil n
  rcases h : natChars n with - | ⟨c, t⟩
  · exact absurd h hne
  · exact ⟨c, List.mem_cons_self c t,
      mem_natCharsAux_isDigit _ _ c (h ▸ List.mem_cons_self c t)⟩

/-- The week field is blank exactly for week-row start dates before the
epoch; at or after the epoch it always shows a digit. -/
theorem weekField_blank_iff (date init : Date) :
    toRata date < toRata init ↔ weekField date init = "      " := by
  constructor
  · intro h
    unfold weekField
    rw [if_pos h]
  · intro h
    by_contra hlt
    unfold weekField at h
    rw [if_neg hlt] at h
    obtain ⟨c, hc, hdig⟩ := exists_digit_mem_natChars (gnssWeek date init).toNat
    have hcmem : c ∈ (padNum 4 (gnssWeek date init) ++ "  ").data := by
      rw [String.data_append]
      refine List.mem_append_left _ ?_
      unfold padNum
      rw [String.data_append]
      refine List.mem_append_right _ ?_
      have hw : ¬(gnssWeek date init < 0) := by
        have := @gnssWeek_nonneg_of_le date init (by omega)
        omega
      unfold intStr
      rw [if_neg hw]
      exact hc
    rw [h] at hcmem
    have hsp : c = ' ' := by
      have hall : ∀ x ∈ ("      " : String).data, x = ' ' := by decide
      exact hall c hcmem
    rw [hsp] at hdig
    exact absurd hdig (by decide)

/-! ### Claim C6 -/

/-- C6: no month-block line ever shows a negative number (in particular no
negative week); the week field written at a row start is blank exactly for
start dates before the epoch; the doy rows (and the line count) do not
depend on the epoch at all; and for a month entirely before the epoch
every data line starts with a blank six-character week field. -/
theorem gnssCalMonth_no_negative_weeks (y m : Nat) (today init init₂ : Date)
    (hl : Bool) (sys : SatSys) (hy : 1 ≤ y) (hm1 : 1 ≤ m) (hm2 : m ≤ 12) :
    (∀ line ∈ gnssCalMonth y m today hl init sys, charFree '-' line) ∧
    (∀ date, toRata date < toRata init ↔ weekField date init = "      ") ∧
    ((gnssCalMonth y m today hl init sys).length =
       (gnssCalMonth y m today hl init₂ sys).length ∧
     oddEntries (gnssCalMonth y m today hl init sys) =
       oddEntries (gnssCalMonth y m today hl init₂ sys)) ∧
    (toRata (firstDayOfNextMonth ⟨y, m, 1⟩) ≤ toRata init →
      ∀ line ∈ (gnssCalMonth y m today hl init sys).drop 2,
        line.data.take 6 = blank6) := by
  refine ⟨?_, fun date => weekField_blank_iff date init, ⟨?_, ?_⟩, ?_⟩
  · exact gnssCalMonth_charFree (by decide) (by decide)
      (by cases sys <;> decide) (charFree_monthName (by decide) (by decide) m)
      (by decide) (fun k _ => charFree_dash_dayCell y m (1 + k) today hl)
  · unfold gnssCalMonth
    simp only [List.length_cons]
    rw [(monthLoop_epoch y m today hl init init₂ _ 1 "" "" "").1]
  · unfold gnssCalMonth
    exact congrArg (List.cons _) (monthLoop_epoch y m today hl init init₂ _ 1 "" "" "").2
  · intro hbefore line hline
    unfold gnssCalMonth at hline
    simp only [List.drop_succ_cons, List.drop_zero] at hline
    have hspan := monthSpan y m hy hm1 hm2
    have hpos := daysInMonth_pos y m hm1 hm2
    refine monthLoop_blank y m today hl init (by omega) _ 1 "" ""
      (le_refl 1) (by omega) ?_ (fun _ => ⟨rfl, rfl⟩) ?_ line hline
    · intro k hk
      have he := toRata_day_add y m 1 k
      omega
    · intro hns
      exact absurd (Or.inl rfl) hns

/-- Witness for C6 at November 1999 with the BeiDou epoch (2006-01-01):
the month lies entirely before the epoch. -/
theorem gnssCalMonth_no_negative_weeks_witness :
    (1 ≤ 1999 ∧ 1 ≤ 11 ∧ 11 ≤ 12) ∧
    ((∀ line ∈ gnssCalMonth 1999 11 ⟨1999, 1, 1⟩ true BDT0 .GPS, charFree '-' line) ∧
    (∀ date, toRata date < toRata BDT0 ↔ weekField date BDT0 = "      ") ∧
    ((gnssCalMonth 1999 11 ⟨1999, 1, 1⟩ true BDT0 .GPS).length =
       (gnssCalMonth 1999 11 ⟨1999, 1, 1⟩ true GPST0 .GPS).length ∧
     oddEntries (gnssCalMonth 1999 11 ⟨1999, 1, 1⟩ true BDT0 .GPS) =
       oddEntries (gnssCalMonth 1999 11 ⟨1999, 1, 1⟩ true GPST0 .GPS)) ∧
    (toRata (firstDayOfNextMonth ⟨1999, 11, 1⟩) ≤ toRata BDT0 →
      ∀ line ∈ (gnssCalMonth 1999 11 ⟨1999, 1, 1⟩ true BDT0 .GPS).drop 2,
        line.data.take 6 = blank6)) :=
  ⟨⟨by omega, by omega, by omega⟩,
    gnssCalMonth_no_negative_weeks 1999 11 ⟨1999, 1, 1⟩ BDT0 GPST0 true .GPS
      (by omega) (by omega) (by omega)⟩

/-! ### Highlight only fires on an exact today match -/

theorem dayCell_of_ne {y m d : Nat} {today : Date}
    (hne : toRata ⟨y, m, d⟩ ≠ toRata today) (hl : Bool) :
    dayCell ⟨y, m, d⟩ today hl = "  " ++ padNum 2 (d : Int) := by
  unfold dayCell
  rw [if_neg (fun h => hne h.1)]

/-- Dates of a valid month all lie in its year, so they differ from a
today-marker of a different year. -/
theorem month_dates_ne_today (y m : Nat) (hy : 1 ≤ y) (hm1 : 1 ≤ m) (hm2 : m ≤ 12)
    (today : Date) (ht : ValidDate today) (hne : today.year ≠ y) :
    ∀ k, k < toRata (firstDayOfNextMonth ⟨y, m, 1⟩) - toRata ⟨y, m, 1⟩ →
      toRata ⟨y, m, 1 + k⟩ ≠ toRata today := by
  intro k hk
  have hspan := monthSpan y m hy hm1 hm2
  have hvalid : ValidDate ⟨y, m, 1 + k⟩ := by
    refine ⟨hy, hm1, hm2, ?_, ?_⟩
    · show 1 ≤ 1 + k
      omega
    · show 1 + k ≤ daysInMonth y m
      omega
  exact toRata_ne_of_year_ne hvalid ht (by simpa using fun h => hne h.symm)

theorem monthLoop_hl (y m : Nat) (today init : Date) :
    ∀ rem d bd bo,
      (∀ k, k < rem → toRata ⟨y, m, d + k⟩ ≠ toRata today) →
      monthLoop y m today true init d rem bd bo =
        monthLoop y m today false init d rem bd bo := by
  intro rem
  induction rem with
  | zero => intro d bd bo _; rfl
  | succ r ih =>
      intro d bd bo hne
      have hne0 : toRata ⟨y, m, d⟩ ≠ toRata today := by
        have := hne 0 (by omega)
        simpa using this
      have hcell : dayCell ⟨y, m, d⟩ today true = dayCell ⟨y, m, d⟩ today false := by
        rw [dayCell_of_ne hne0, dayCell_of_ne hne0]
      have hstep : dayRowStep y m d today true init bd =
          dayRowStep y m d today false init bd := by
        unfold dayRowStep
        rw [hcell]
      have hne1 : ∀ k, k < r → toRata ⟨y, m, d + 1 + k⟩ ≠ toRata today := by
        intro k hk
        have he : d + 1 + k = d + (k + 1) := by omega
        rw [he]
        exact hne (k + 1) (by omega)
      unfold monthLoop
      rw [hstep]
      split
      · rw [ih (d + 1) "" "" hne1]
      · rw [ih (d + 1) _ _ hne1]

/-- A month block is independent of the highlight flag when no date of the
month equals the today-marker. -/
theorem gnssCalMonth_hl (y m : Nat) (today : Date)
    (hne : ∀ k, k < toRata (firstDayOfNextMonth ⟨y, m, 1⟩) - toRata ⟨y, m, 1⟩ →
      toRata ⟨y, m, 1 + k⟩ ≠ toRata today) :
    ∀ init sys, gnssCalMonth y m today true init sys =
      gnssCalMonth y m today false init sys := by
  intro init sys
  simp only [gnssCalMonth]
  rw [monthLoop_hl y m today init _ 1 "" "" hne]

/-- A three-month block anchored inside a year is independent of the
highlight flag when the today-marker lies in a different year. -/
theorem threeMonthLayout_hl (Y M : Nat) (today init : Date) (sys : SatSys)
    (hy : 1 ≤ Y) (hm1 : 2 ≤ M) (hm2 : M ≤ 11) (ht : ValidDate today)
    (hne : today.year ≠ Y) :
    threeMonthLayout ⟨Y, M, 1⟩ today true init sys =
      threeMonthLayout ⟨Y, M, 1⟩ today false init sys := by
  have hprev : firstDayOfLastMonth ⟨Y, M, 1⟩ = ⟨Y, M - 1, 1⟩ := by
    unfold firstDayOfLastMonth
    simp only
    rw [if_neg (by omega)]
  have hnext : firstDayOfNextMonth ⟨Y, M, 1⟩ = ⟨Y, M + 1, 1⟩ := by
    unfold firstDayOfNextMonth
    simp only
    rw [if_neg (by omega)]
  have h1 := gnssCalMonth_hl Y (M - 1) today
    (month_dates_ne_today Y (M - 1) hy (by omega) (by omega) today ht hne)
  have h2 := gnssCalMonth_hl Y M today
    (month_dates_ne_today Y M hy (by omega) (by omega) today ht hne)
  have h3 := gnssCalMonth_hl Y (M + 1) today
    (month_dates_ne_today Y (M + 1) hy (by omega) (by omega) today ht hne)
  simp only [threeMonthLayout, hprev, hnext]
  simp only [h1, h2, h3]

/-! ### No escape sequences without a today match -/

theorem gnssCalMonth_escFree (y m : Nat) (today init : Date) (hl : Bool) (sys : SatSys)
    (hne : ∀ k, k < toRata (firstDayOfNextMonth ⟨y, m, 1⟩) - toRata ⟨y, m, 1⟩ →
      toRata ⟨y, m, 1 + k⟩ ≠ toRata today) :
    ∀ line ∈ gnssCalMonth y m today hl init sys, charFree '\x1b' line := by
  refine gnssCalMonth_charFree (by decide) (by decide)
    (by cases sys <;> decide) (charFree_monthName (by decide) (by decide) m)
    (by decide) ?_
  intro k hk
  exact charFree_dayCell_plain (by decide) (by decide)
    (fun h => hne k hk h.1)

theorem charFree_threeMonthLine {c : Char} (hsp : c ≠ ' ')
    {msgl msgc msgr : List String}
    (h1 : ∀ s ∈ msgl, charFree c s) (h2 : ∀ s ∈ msgc, charFree c s)
    (h3 : ∀ s ∈ msgr, charFree c s) (i : Nat) :
    charFree c (threeMonthLine msgl msgc msgr i) := by
  unfold threeMonthLine
  have hfield : ∀ (msg : List String), (∀ s ∈ msg, charFree c s) →
      charFree c (if i < msg.length then padStrRight 34 (msg.getD i "")
        else padStrLeft 34 "") := by
    intro msg hmsg
    split
    · rename_i hi
      refine charFree_padStrRight hsp (hmsg _ ?_)
      rw [List.getD_eq_getElem _ _ hi]
      exact List.getElem_mem hi
    · exact charFree_padStrLeft hsp (charFree_empty c)
  refine charFree_append.mpr ⟨charFree_append.mpr ⟨charFree_append.mpr
    ⟨charFree_append.mpr ⟨hfield msgl h1, charFree_of_all_space hsp (by decide)⟩,
      hfield msgc h2⟩, charFree_of_all_space hsp (by decide)⟩, hfield msgr h3⟩

theorem threeMonthLayout_escFree (Y M : Nat) (today init : Date) (sys : SatSys)
    (hl : Bool) (hy : 1 ≤ Y) (hm1 : 2 ≤ M) (hm2 : M ≤ 11) (ht : ValidDate today)
    (hne : today.year ≠ Y) :
    ∀ line ∈ threeMonthLayout ⟨Y, M, 1⟩ today hl init sys,
      charFree '\x1b' line := by
  have hprev : firstDayOfLastMonth ⟨Y, M, 1⟩ = ⟨Y, M - 1, 1⟩ := by
    unfold firstDayOfLastMonth
    simp only
    rw [if_neg (by omega)]
  have hnext : firstDayOfNextMonth ⟨Y, M, 1⟩ = ⟨Y, M + 1, 1⟩ := by
    unfold firstDayOfNextMonth
    simp only
    rw [if_neg (by omega)]
  have h1 := gnssCalMonth_escFree Y (M - 1) today
  have h2 := gnssCalMonth_escFree Y M today
  have h3 := gnssCalMonth_escFree Y (M + 1) today
  intro line hline
  simp only [threeMonthLayout, hprev, hnext, List.mem_map, List.mem_range] at hline
  obtain ⟨i, -, rfl⟩ := hline
  refine charFree_threeMonthLine (by decide) ?_ ?_ ?_ i
  · split
    · exact h1 _ hl sys (month_dates_ne_today Y (M - 1) hy (by omega) (by omega) today ht hne)
    · exact h1 _ hl sys (month_dates_ne_today Y (M - 1) hy (by omega) (by omega) today ht hne)
  · exact h2 _ hl sys (month_dates_ne_today Y M hy (by omega) (by omega) today ht hne)
  · split
    · exact h3 _ hl sys (month_dates_ne_today Y (M + 1) hy (by omega) (by omega) today ht hne)
    · exact h3 _ hl sys (month_dates_ne_today Y (M + 1) hy (by omega) (by omega) today ht hne)

/-! ### Claim C8 -/

/-- C8: when the today-marker's year differs from the target year, the
full-year layout is identical with highlighting on and off, and no line
contains the highlight escape character. -/
theorem OneYearLayout_no_highlight (y : Nat) (today init : Date) (sys : SatSys)
    (hy : 1 ≤ y) (ht : ValidDate today) (hne : today.year ≠ y) :
    OneYearLayoutFn y today true init sys = OneYearLayoutFn y today false init sys ∧
    ∀ line ∈ OneYearLayoutFn y today true init sys, charFree '\x1b' line := by
  constructor
  · unfold OneYearLayoutFn
    rw [threeMonthLayout_hl y 2 today init sys hy (by omega) (by omega) ht hne,
      threeMonthLayout_hl y 5 today init sys hy (by omega) (by omega) ht hne,
      threeMonthLayout_hl y 8 today init sys hy (by omega) (by omega) ht hne,
      threeMonthLayout_hl y 11 today init sys hy (by omega) (by omega) ht hne]
  · intro line hline
    unfold OneYearLayoutFn at hline
    simp only [List.mem_append, List.mem_singleton, or_assoc] at hline
    rcases hline with h | h | h | h | h | h | h
    · exact threeMonthLayout_escFree y 2 today init sys true hy (by omega) (by omega)
        ht hne line h
    · subst h; exact charFree_empty _
    · exact threeMonthLayout_escFree y 5 today init sys true hy (by omega) (by omega)
        ht hne line h
    · subst h; exact charFree_empty _
    · exact threeMonthLayout_escFree y 8 today init sys true hy (by omega) (by omega)
        ht hne line h
    · subst h; exact charFree_empty _
    · exact threeMonthLayout_escFree y 11 today init sys true hy (by omega) (by omega)
        ht hne line h

/-- Witness for C8: the 2021 full-year view with a 2020 today-marker. -/
theorem OneYearLayout_no_highlight_witness :
    (1 ≤ 2021 ∧ ValidDate ⟨2020, 5, 5⟩ ∧ (2020 : Nat) ≠ 2021) ∧
    (OneYearLayoutFn 2021 ⟨2020, 5, 5⟩ true GPST0 .GPS =
       OneYearLayoutFn 2021 ⟨2020, 5, 5⟩ false GPST0 .GPS ∧
     ∀ line ∈ OneYearLayoutFn 2021 ⟨2020, 5, 5⟩ true GPST0 .GPS,
       charFree '\x1b' line) :=
  ⟨⟨by omega, by decide, by omega⟩,
    OneYearLayout_no_highlight 2021 ⟨2020, 5, 5⟩ GPST0 .GPS
      (by omega) (by decide) (by decide)⟩

/-! ### Field widths of the rendered cells -/

theorem daysBeforeMonth_le (y m : Nat) : daysBeforeMonth y m ≤ 335 := by
  cases hL : isLeap y <;>
    simp only [daysBeforeMonth, hL, if_true, if_false, Bool.false_eq_true] <;>
    split <;> omega

theorem daysInMonth_le (y m : Nat) : daysInMonth y m ≤ 31 := by
  unfold daysInMonth
  split <;> (try split) <;> omega

theorem monthName_length_le (m : Nat) (h1 : 1 ≤ m) (h2 : m ≤ 12) :
    (monthName m).length ≤ 9 := by
  interval_cases m <;> decide

/-- The week field is always exactly six characters wide when the shown
date is within 70000 days after the epoch (the week number then has at
most four digits). -/
theorem weekField_length_eq (date init : Date)
    (hb : toRata date < toRata init + 70000) :
    (weekField date init).length = 6 := by
  unfold weekField
  split
  · rfl
  · rename_i hlt
    have hle : toRata init ≤ toRata date := by omega
    have heq := gnssWeek_div_of_le date init hle (by omega)
    have hpos := gnssWeek_nonneg_of_le hle
    have hlt4 : gnssWeek date init < 10 ^ 4 := by
      rw [heq]
      have hn : (toRata date - toRata init) / 7 < 10000 := by omega
      have : ((10 : Int) ^ 4) = 10000 := by norm_num
      rw [this]
      exact_mod_cast hn
    have hlen : (intStr (gnssWeek date init)).length ≤ 4 :=
      intStr_length_le (by omega) hpos hlt4
    rw [String.length_append, padNum_length]
    have h2 : ("  " : String).length = 2 := rfl
    omega

theorem dayCell_length (y m d : Nat) (today : Date) (hl : Bool) (hd99 : d ≤ 99)
    (hfree : charFree '\x1b' (dayCell ⟨y, m, d⟩ today hl)) :
    (dayCell ⟨y, m, d⟩ today hl).length = 4 := by
  unfold dayCell at hfree ⊢
  by_cases hc : toRata ⟨y, m, d⟩ = toRata today ∧ hl = true
  · exfalso
    rw [if_pos hc] at hfree
    refine hfree ?_
    rw [String.data_append, String.data_append]
    exact List.mem_append_left _ (List.mem_append_left _ (by decide))
  · rw [if_neg hc]
    have hdlt : ((d : Int)) < 10 ^ 2 := by
      have : ((10 : Int) ^ 2) = 100 := by norm_num
      rw [this]
      exact_mod_cast (by omega : d < 100)
    have hlen : (intStr (d : Int)).length ≤ 2 :=
      intStr_length_le (by omega) (by positivity) hdlt
    have hproj : ({ year := y, month := m, day := d } : Date).day = d := rfl
    rw [hproj, String.length_append, padNum_length]
    have h2 : ("  " : String).length = 2 := rfl
    omega

theorem padNum3_doy_length (y m d : Nat) (hd : d ≤ 400) :
    (padNum 3 (doy ⟨y, m, d⟩)).length = 3 := by
  have hdoy := doy_eq y m d
  have hP := daysBeforeMonth_le y m
  have h0 := doy_nonneg y m d
  have hlt : doy ⟨y, m, d⟩ < 10 ^ 3 := by
    rw [hdoy]
    have : ((10 : Int) ^ 3) = 1000 := by norm_num
    rw [this]
    exact_mod_cast (by omega : daysBeforeMonth y m + d < 1000)
  have hlen : (intStr (doy ⟨y, m, d⟩)).length ≤ 3 :=
    intStr_length_le (by omega) h0 hlt
  rw [padNum_length]
  omega

/-- Length of the emitted data lines: every escape-free line of the date
loop is at most 34 characters (exactly 34 for full Saturday-flushed rows)
when week numbers stay below five digits. -/
theorem monthLoop_length (y m : Nat) (today : Date) (hl : Bool) (init : Date)
    (hweek : ∀ dd, dd ≤ 32 → toRata ⟨y, m, dd⟩ < toRata init + 70000) :
    ∀ rem d bd bo,
      1 ≤ d → d + rem ≤ 33 →
      (rowStart y m d → bd = "" ∧ bo = "") →
      (¬rowStart y m d →
        bo.length = 6 + 4 * (toRata ⟨y, m, d⟩ % 7) ∧
        (charFree '\x1b' bd → bd.length = 6 + 4 * (toRata ⟨y, m, d⟩ % 7))) →
      ∀ line ∈ monthLoop y m today hl init d rem bd bo,
        charFree '\x1b' line → line.length ≤ 34 := by
  intro rem
  induction rem with
  | zero =>
      intro d bd bo hd1 hd33 hst hnst line hline hfree
      unfold monthLoop at hline
      have hwlt : toRata ⟨y, m, d⟩ % 7 < 7 := Nat.mod_lt _ (by omega)
      split at hline
      · simp only [List.mem_cons, List.not_mem_nil, or_false] at hline
        by_cases hs : rowStart y m d
        · obtain ⟨h1, h2⟩ := hst hs
          rcases hline with rfl | rfl
          · rw [h1]; decide
          · rw [h2]; decide
        · obtain ⟨h1, h2⟩ := hnst hs
          rcases hline with rfl | rfl
          · rw [h2 hfree]; omega
          · rw [h1]; omega
      · cases hline
  | succ r ih =>
      intro d bd bo hd1 hd33 hst hnst line hline hfree
      unfold monthLoop at hline
      have hwlt : toRata ⟨y, m, d⟩ % 7 < 7 := Nat.mod_lt _ (by omega)
      have hsucc : toRata ⟨y, m, d + 1⟩ = toRata ⟨y, m, d⟩ + 1 := toRata_day_add y m d 1
      have hweek6 : (weekField ⟨y, m, d⟩ init).length = 6 :=
        weekField_length_eq _ _ (hweek d (by omega))
      have hbo1 : (doyRowStep y m d bo).length =
          6 + 4 * (toRata ⟨y, m, d⟩ % 7) + 4 := by
        unfold doyRowStep
        rw [String.length_append, String.length_append,
          padNum3_doy_length y m d (by omega)]
        have e1 : (" " : String).length = 1 := rfl
        by_cases hs : rowStart y m d
        · obtain ⟨-, h2⟩ := hst hs
          rw [if_pos hs, h2, String.length_append, String.length_append,
            spacesStr_length]
          have e0 : ("" : String).length = 0 := rfl
          have e6 : ("      " : String).length = 6 := rfl
          omega
        · obtain ⟨h1, -⟩ := hnst hs
          rw [if_neg hs, h1]
          omega
      have hbd1 : charFree '\x1b' (dayRowStep y m d today hl init bd) →
          (dayRowStep y m d today hl init bd).length =
            6 + 4 * (toRata ⟨y, m, d⟩ % 7) + 4 := by
        intro hfr
        unfold dayRowStep at hfr ⊢
        obtain ⟨hfr1, hfr2⟩ := charFree_append.mp hfr
        rw [String.length_append, dayCell_length y m d today hl (by omega) hfr2]
        by_cases hs : rowStart y m d
        · obtain ⟨h1, -⟩ := hst hs
          rw [if_pos hs, h1, String.length_append, String.length_append,
            spacesStr_length, hweek6]
          have e0 : ("" : String).length = 0 := rfl
          omega
        · rw [if_neg hs] at hfr1 ⊢
          rw [(hnst hs).2 hfr1]
      split at hline
      · rename_i hsat
        simp only [List.mem_cons] at hline
        rcases hline with rfl | rfl | h
        · rw [hbd1 hfree, hsat]
        · rw [hbo1, hsat]
        · refine ih (d + 1) "" "" (by omega) (by omega)
            (fun _ => ⟨rfl, rfl⟩) (fun hns => absurd (Or.inr (by omega)) hns)
            line h hfree
      · rename_i hnsat
        have hns1 : ¬rowStart y m (d + 1) := by
          intro hs
          rcases hs with hfirst | hsun
          · have := (toRata_eq_first_iff y m (d + 1)).mp hfirst
            omega
          · omega
        refine ih (d + 1) _ _ (by omega) (by omega)
          (fun hs => absurd hs hns1) (fun _ => ⟨?_, ?_⟩) line hline hfree
        · rw [hbo1]
          omega
        · intro hfr
          rw [hbd1 hfr]
          omega

/-- Every escape-free line of a month block is at most 34 characters when
the year has at most four digits and the whole month lies within 70000
days after the epoch. -/
theorem gnssCalMonth_line_length (y m : Nat) (today init : Date) (hl : Bool)
    (sys : SatSys) (hy1 : 1 ≤ y) (hy2 : y ≤ 9999) (hm1 : 1 ≤ m) (hm2 : m ≤ 12)
    (hweek : toRata ⟨y, m, 32⟩ < toRata init + 70000) :
    ∀ line ∈ gnssCalMonth y m today hl init sys,
      charFree '\x1b' line → line.length ≤ 34 := by
  intro line hline hfree
  unfold gnssCalMonth at hline
  simp only [List.mem_cons] at hline
  rcases hline with rfl | rfl | h
  · have hsys3 : (sysLabel sys).length = 3 := by cases sys <;> rfl
    have hylt : ((y : Nat) : Int) < 10 ^ 4 := by
      have : ((10 : Int) ^ 4) = 10000 := by norm_num
      rw [this]
      exact_mod_cast (by omega : y < 10000)
    have hpady : (padNum 4 ((y : Nat) : Int)).length = 4 :=
      padNum_length_of_le (intStr_length_le (by omega) (by positivity) hylt)
    have hmn9 := monthName_length_le m hm1 hm2
    have he1 : (" " : String).length = 1 := rfl
    rw [String.length_append, hsys3, padStrLeft_length, String.length_append,
      String.length_append, hpady, he1]
    omega
  · decide
  · have hmono : ∀ dd, dd ≤ 32 → toRata ⟨y, m, dd⟩ < toRata init + 70000 := by
      intro dd hdd
      have h1 : toRata ⟨y, m, dd⟩ ≤ toRata ⟨y, m, 32⟩ := by
        unfold toRata
        simp only
        omega
      omega
    have hspan := monthSpan y m hy1 hm1 hm2
    have hle31 := daysInMonth_le y m
    refine monthLoop_length y m today hl init hmono _ 1 "" "" (le_refl 1)
      (by omega) (fun _ => ⟨rfl, rfl⟩) (fun hns => absurd (Or.inl rfl) hns)
      line h hfree

/-! ### Date monotonicity across adjacent months -/

theorem rata32_next (Y M D : Nat) (hy : 1 ≤ Y) (hm1 : 1 ≤ M) (hm2 : M ≤ 12) :
    toRata ⟨Y, M, 32⟩ ≤
      toRata ⟨(firstDayOfNextMonth ⟨Y, M, D⟩).year,
        (firstDayOfNextMonth ⟨Y, M, D⟩).month, 32⟩ := by
  by_cases h12 : M = 12
  · subst h12
    have hsucc := daysBeforeYear_succ Y hy
    have e : firstDayOfNextMonth ⟨Y, 12, D⟩ = ⟨Y + 1, 1, 1⟩ := rfl
    rw [e]
    unfold toRata
    simp only
    have e1 : daysBeforeMonth (Y + 1) 1 = 0 := rfl
    have e2 : daysBeforeMonth Y 12 = 334 + (if isLeap Y then 1 else 0) := by
      cases hL : isLeap Y <;> simp [daysBeforeMonth, hL]
    rw [e1, e2]
    cases hL : isLeap Y <;>
      simp only [hL, if_true, if_false, Bool.false_eq_true] at hsucc ⊢ <;> omega
  · have e : firstDayOfNextMonth ⟨Y, M, D⟩ = ⟨Y, M + 1, 1⟩ := by
      unfold firstDayOfNextMonth
      simp only
      rw [if_neg h12]
    rw [e]
    unfold toRata
    simp only
    have hm11 : M ≤ 11 := by omega
    have : daysBeforeMonth Y M ≤ daysBeforeMonth Y (M + 1) := by
      interval_cases M <;> cases hL : isLeap Y <;>
        simp [daysBeforeMonth, hL]
    omega

theorem next_of_prev (Y M D : Nat) (hy : 2 ≤ Y) (hm1 : 1 ≤ M) (hm2 : M ≤ 12) :
    firstDayOfNextMonth ⟨(firstDayOfLastMonth ⟨Y, M, D⟩).year,
      (firstDayOfLastMonth ⟨Y, M, D⟩).month, 1⟩ = ⟨Y, M, 1⟩ := by
  by_cases h1 : M = 1
  · subst h1
    have e1 : firstDayOfLastMonth ⟨Y, 1, D⟩ = ⟨Y - 1, 12, 1⟩ := rfl
    rw [e1]
    have e2 : firstDayOfNextMonth ⟨Y - 1, 12, 1⟩ = ⟨Y - 1 + 1, 1, 1⟩ := rfl
    rw [e2]
    have e3 : Y - 1 + 1 = Y := by omega
    rw [e3]
  · have e1 : firstDayOfLastMonth ⟨Y, M, D⟩ = ⟨Y, M - 1, 1⟩ := by
      unfold firstDayOfLastMonth
      simp only
      rw [if_neg h1]
    rw [e1]
    have h2 : ¬(M - 1 = 12) := by omega
    have e2 : firstDayOfNextMonth ⟨Y, M - 1, 1⟩ = ⟨Y, M - 1 + 1, 1⟩ := by
      unfold firstDayOfNextMonth
      simp only
      rw [if_neg h2]
    rw [e2]
    have e3 : M - 1 + 1 = M := by omega
    rw [e3]

theorem prev_fields (Y M D : Nat) (hy : 2 ≤ Y) (hm1 : 1 ≤ M) (hm2 : M ≤ 12) :
    1 ≤ (firstDayOfLastMonth ⟨Y, M, D⟩).year ∧
    (firstDayOfLastMonth ⟨Y, M, D⟩).year ≤ Y ∧
    1 ≤ (firstDayOfLastMonth ⟨Y, M, D⟩).month ∧
    (firstDayOfLastMonth ⟨Y, M, D⟩).month ≤ 12 := by
  unfold firstDayOfLastMonth
  by_cases h1 : M = 1 <;> simp [h1] <;> omega

theorem next_fields (Y M D : Nat) (hy : 1 ≤ Y) (hm1 : 1 ≤ M) (hm2 : M ≤ 12) :
    1 ≤ (firstDayOfNextMonth ⟨Y, M, D⟩).year ∧
    (firstDayOfNextMonth ⟨Y, M, D⟩).year ≤ Y + 1 ∧
    1 ≤ (firstDayOfNextMonth ⟨Y, M, D⟩).month ∧
    (firstDayOfNextMonth ⟨Y, M, D⟩).month ≤ 12 := by
  unfold firstDayOfNextMonth
  by_cases h1 : M = 12 <;> simp [h1] <;> omega

/-- For the dynamic GLONASS epoch every shown week number is small: any
date of a month is less than 70000 days after January 1 of the enclosing
multiple-of-4 year. -/
theorem glo_week_bound (y m : Nat) :
    toRata ⟨y, m, 32⟩ < toRata (leapYearDate ⟨y, m, 1⟩) + 70000 := by
  have he : leapYearDate ⟨y, m, 1⟩ = ⟨y - y % 4, 1, 1⟩ := rfl
  rw [he]
  have hmono := daysBeforeYear_mono (show y ≤ (y - y % 4) + 3 by omega)
  have h1 := daysBeforeYear_succ_le (y - y % 4)
  have h2 : daysBeforeYear (y - y % 4 + 2) ≤ daysBeforeYear (y - y % 4 + 1) + 366 :=
    daysBeforeYear_succ_le (y - y % 4 + 1)
  have h3 : daysBeforeYear (y - y % 4 + 3) ≤ daysBeforeYear (y - y % 4 + 2) + 366 :=
    daysBeforeYear_succ_le (y - y % 4 + 2)
  have hP := daysBeforeMonth_le y m
  unfold toRata
  simp only
  have e1 : daysBeforeMonth (y - y % 4) 1 = 0 := rfl
  rw [e1]
  omega

/-- One 34-column field of a composed line: padded to exactly 34
characters when the underlying block line is escape-free, at least 34
always. -/
theorem monthField_length (msg : List String) (i : Nat)
    (hmsg : ∀ s ∈ msg, charFree '\x1b' s → s.length ≤ 34) :
    34 ≤ (if i < msg.length then padStrRight 34 (msg.getD i "")
      else padStrLeft 34 "").length ∧
    (charFree '\x1b' (if i < msg.length then padStrRight 34 (msg.getD i "")
        else padStrLeft 34 "") →
      (if i < msg.length then padStrRight 34 (msg.getD i "")
        else padStrLeft 34 "").length = 34) := by
  by_cases hi : i < msg.length
  · rw [if_pos hi, padStrRight_length]
    constructor
    · omega
    · intro hfr
      obtain ⟨hfr1, -⟩ := charFree_append.mp hfr
      have hm : msg.getD i "" ∈ msg := by
        rw [List.getD_eq_getElem _ _ hi]
        exact List.getElem_mem hi
      have := hmsg _ hm hfr1
      omega
  · rw [if_neg hi, padStrLeft_length]
    have e0 : ("" : String).length = 0 := rfl
    exact ⟨by omega, fun _ => by omega⟩

theorem threeMonthLine_length {msgl msgc msgr : List String} (i : Nat)
    (h1 : ∀ s ∈ msgl, charFree '\x1b' s → s.length ≤ 34)
    (h2 : ∀ s ∈ msgc, charFree '\x1b' s → s.length ≤ 34)
    (h3 : ∀ s ∈ msgr, charFree '\x1b' s → s.length ≤ 34) :
    110 ≤ (threeMonthLine msgl msgc msgr i).length ∧
    (charFree '\x1b' (threeMonthLine msgl msgc msgr i) →
      (threeMonthLine msgl msgc msgr i).length = 110) := by
  have hf1 := monthField_length msgl i h1
  have hf2 := monthField_length msgc i h2
  have hf3 := monthField_length msgr i h3
  have e4 : ("    " : String).length = 4 := rfl
  unfold threeMonthLine
  rw [String.length_append, String.length_append, String.length_append,
    String.length_append, e4]
  constructor
  · omega
  · intro hfr
    obtain ⟨hfr, hc3⟩ := charFree_append.mp hfr
    obtain ⟨hfr, -⟩ := charFree_append.mp hfr
    obtain ⟨hfr, hc2⟩ := charFree_append.mp hfr
    obtain ⟨hfr, -⟩ := charFree_append.mp hfr
    rw [hf1.2 hfr, hf2.2 hc2, hf3.2 hc3]

/-! ### Claim C9, amended -/

/-- C9 (amended): every line of the three-month layout is three fields
padded to at least 34 characters with 4-space gutters, hence at least 110
characters; and provided the reference year is in `[2, 9998]` and (for the
fixed-epoch systems) the months shown end within 70000 days of the epoch —
so all week numbers have at most four digits — every line containing no
highlight escape is exactly 110 characters. Without the week-number bound
the original claim fails (see the counterexample). -/
theorem threeMonthLayout_line_width (refDate today init : Date) (hl : Bool)
    (sys : SatSys) (hm1 : 1 ≤ refDate.month) (hm2 : refDate.month ≤ 12)
    (hy1 : 2 ≤ refDate.year) (hy2 : refDate.year ≤ 9998)
    (hweek : toRata ⟨(firstDayOfNextMonth refDate).year,
      (firstDayOfNextMonth refDate).month, 32⟩ < toRata init + 70000) :
    ∀ line ∈ threeMonthLayout refDate today hl init sys,
      110 ≤ line.length ∧
      (charFree '\x1b' line → line.length = 110) := by
  obtain ⟨Y, M, D⟩ := refDate
  simp only at hm1 hm2 hy1 hy2
  have hprev := prev_fields Y M D (by omega) hm1 hm2
  have hnext := next_fields Y M D (by omega) hm1 hm2
  have hcnext := rata32_next Y M D (by omega) hm1 hm2
  have hpnext : toRata ⟨(firstDayOfLastMonth ⟨Y, M, D⟩).year,
      (firstDayOfLastMonth ⟨Y, M, D⟩).month, 32⟩ ≤ toRata ⟨Y, M, 32⟩ := by
    have h := rata32_next (firstDayOfLastMonth ⟨Y, M, D⟩).year
      (firstDayOfLastMonth ⟨Y, M, D⟩).month 1 hprev.1 hprev.2.2.1 hprev.2.2.2
    rw [next_of_prev Y M D (by omega) hm1 hm2] at h
    exact h
  have hLen1 : ∀ initL, (toRata ⟨(firstDayOfLastMonth ⟨Y, M, D⟩).year,
        (firstDayOfLastMonth ⟨Y, M, D⟩).month, 32⟩ < toRata initL + 70000) →
      ∀ s ∈ gnssCalMonth (firstDayOfLastMonth ⟨Y, M, D⟩).year
        (firstDayOfLastMonth ⟨Y, M, D⟩).month today hl initL sys,
        charFree '\x1b' s → s.length ≤ 34 := by
    intro initL hb
    exact gnssCalMonth_line_length _ _ today initL hl sys hprev.1 (by omega)
      hprev.2.2.1 hprev.2.2.2 hb
  have hLen2 : ∀ initL, (toRata ⟨Y, M, 32⟩ < toRata initL + 70000) →
      ∀ s ∈ gnssCalMonth Y M today hl initL sys,
        charFree '\x1b' s → s.length ≤ 34 := by
    intro initL hb
    exact gnssCalMonth_line_length Y M today initL hl sys (by omega) (by omega)
      hm1 hm2 hb
  have hLen3 : ∀ initL, (toRata ⟨(firstDayOfNextMonth ⟨Y, M, D⟩).year,
        (firstDayOfNextMonth ⟨Y, M, D⟩).month, 32⟩ < toRata initL + 70000) →
      ∀ s ∈ gnssCalMonth (firstDayOfNextMonth ⟨Y, M, D⟩).year
        (firstDayOfNextMonth ⟨Y, M, D⟩).month today hl initL sys,
        charFree '\x1b' s → s.length ≤ 34 := by
    intro initL hb
    exact gnssCalMonth_line_length _ _ today initL hl sys hnext.1 (by omega)
      hnext.2.2.1 hnext.2.2.2 hb
  intro line hline
  simp only [threeMonthLayout, List.mem_map, List.mem_range] at hline
  obtain ⟨i, -, rfl⟩ := hline
  refine threeMonthLine_length i ?_ ?_ ?_
  · by_cases hglo : sys = SatSys.GLO
    · rw [if_pos hglo]
      exact hLen1 _ (glo_week_bound _ _)
    · rw [if_neg hglo]
      exact hLen1 _ (by omega)
  · exact hLen2 _ (by omega)
  · by_cases hglo : sys = SatSys.GLO
    · rw [if_pos hglo]
      exact hLen3 _ (glo_week_bound _ _)
    · rw [if_neg hglo]
      exact hLen3 _ hweek

/-- Counterexample to C9 as stated: at reference date March 2200 under the
GPS epoch the week numbers have five digits, so line 4 of the layout
contains no escape character yet is 113 characters long, not 110. -/
theorem threeMonthLayout_line_overflow :
    charFree '\x1b'
      ((threeMonthLayout ⟨2200, 3, 1⟩ ⟨1980, 1, 1⟩ false GPST0 .GPS).getD 4 "") ∧
    ((threeMonthLayout ⟨2200, 3, 1⟩ ⟨1980, 1, 1⟩ false GPST0 .GPS).getD 4 "").length
      = 113 := by
  constructor
  · decide
  · decide

/-- Witness for the amended C9 at December 2021 under the GPS epoch. -/
theorem threeMonthLayout_line_width_witness :
    (1 ≤ (⟨2021, 12, 1⟩ : Date).month ∧ (⟨2021, 12, 1⟩ : Date).month ≤ 12 ∧
     2 ≤ (⟨2021, 12, 1⟩ : Date).year ∧ (⟨2021, 12, 1⟩ : Date).year ≤ 9998 ∧
     toRata ⟨(firstDayOfNextMonth ⟨2021, 12, 1⟩).year,
       (firstDayOfNextMonth ⟨2021, 12, 1⟩).month, 32⟩ < toRata GPST0 + 70000) ∧
    ∀ line ∈ threeMonthLayout ⟨2021, 12, 1⟩ ⟨2021, 1, 1⟩ false GPST0 .GPS,
      110 ≤ line.length ∧ (charFree '\x1b' line → line.length = 110) :=
  ⟨⟨by decide, by decide, by decide, by decide, by decide⟩,
    threeMonthLayout_line_width ⟨2021, 12, 1⟩ ⟨2021, 1, 1⟩ GPST0 false .GPS
      (by decide) (by decide) (by decide) (by decide) (by decide)⟩

end Gnsscal
